import Mathlib

/-!
# ps5tracker: stock monitoring loop of `ps5tracker.go`

A shallow embedding of `main` in `src/ps5tracker.go`: the in-memory map
`alertAlreadySent`, the per-target body of the `for _, item := range urlList`
loop, the load and the rewrite of `instock.csv`, and the few standard-library
functions the loop relies on (`strings.Contains`, `strings.Split`,
`strconv.ParseInt`, `strconv.FormatInt`, `bufio.Scanner`).

The browser and the Twitter client are external: every call the loop makes to
them is represented by its result, collected in the record `Probe`.
-/

namespace PS5Tracker

/-! ## Strings -/

/-- Whether `sub` occurs in `l` as a contiguous block (on character lists). -/
def hasInfix : List Char → List Char → Bool
  | [], sub => sub.isEmpty
  | c :: cs, sub => sub.isPrefixOf (c :: cs) || hasInfix cs sub

/-- Go `strings.Contains(s, substr)`. -/
def Contains (s substr : String) : Bool := hasInfix s.data substr.data

/-- Go `strings.Split(s, sep)` for a one-character separator, on character lists;
`cur` is the field being read. The result always has at least one field. -/
def splitAux (sep : Char) : List Char → List Char → List (List Char)
  | cur, [] => [cur]
  | cur, c :: cs => if c = sep then cur :: splitAux sep [] cs else splitAux sep (cur ++ [c]) cs

/-- Go `strings.Split(s, ",")`. -/
def Split (s : String) : List String := (splitAux ',' [] s.data).map String.mk

/-! ## 64-bit integers and `strconv` -/

/-- Two's complement wrap-around of an integer into the `int64` range. -/
def wrap64 (x : Int) : Int := (x + 2 ^ 63) % 2 ^ 64 - 2 ^ 63

/-- The value `int64(time.Minute*5)`, in nanoseconds. -/
def cooldown : Int := 5 * 60 * 1000000000

/-- Error kinds of `strconv`: none, `ErrSyntax`, `ErrRange`. -/
inductive NumErr where
  | nil
  | syntaxErr
  | rangeErr
  deriving DecidableEq, Repr

/-- The digit loop of `strconv.ParseUint(s, 10, bitSize)`, with `maxVal = 2^bitSize - 1`
and the base-10 cutoff `maxUint64/10 + 1`; `n` is the `uint64` accumulator. -/
def parseUintLoop (maxVal : Nat) : List Char → Nat → Nat × NumErr
  | [], n => (n, NumErr.nil)
  | c :: cs, n =>
    if '0' ≤ c ∧ c ≤ '9' then
      if n ≥ (2 ^ 64 - 1) / 10 + 1 then (maxVal, NumErr.rangeErr)
      else
        let n10 := n * 10
        let n1 := (n10 + (c.toNat - '0'.toNat)) % 2 ^ 64
        if n1 < n10 ∨ n1 > maxVal then (maxVal, NumErr.rangeErr)
        else parseUintLoop maxVal cs n1
    else (0, NumErr.syntaxErr)

/-- Go `strconv.ParseUint(s, 10, bitSize)` on a character list. -/
def ParseUint (s : List Char) (bitSize : Nat) : Nat × NumErr :=
  if s = [] then (0, NumErr.syntaxErr) else parseUintLoop (2 ^ bitSize - 1) s 0

/-- The part of `strconv.ParseInt` after the sign has been removed. -/
def parseIntAbs (neg : Bool) (s : List Char) (bitSize : Nat) : Int :=
  let r := ParseUint s bitSize
  if r.2 = NumErr.syntaxErr then 0
  else
    let cutoff : Nat := 2 ^ (bitSize - 1)
    if !neg && r.1 ≥ cutoff then ((cutoff : Int) - 1)
    else if neg && r.1 > cutoff then -(cutoff : Int)
    else if neg then -(r.1 : Int) else (r.1 : Int)

/-- Go `n, _ := strconv.ParseInt(s, 10, bitSize)`: the value returned, the error being
dropped by every caller in `main` (0 on a syntax error, the nearest bound on a range
error). -/
def ParseInt (s : String) (bitSize : Nat) : Int :=
  match s.data with
  | [] => 0
  | '+' :: rest => parseIntAbs false rest bitSize
  | '-' :: rest => parseIntAbs true rest bitSize
  | c :: rest => parseIntAbs false (c :: rest) bitSize

/-- Go `strconv.FormatInt(i, 10)`. -/
def FormatInt (i : Int) : String :=
  if i < 0 then "-" ++ Nat.repr i.natAbs else Nat.repr i.natAbs

/-! ## The map `alertAlreadySent` -/

/-- Go `map[string]string` as an association list; a key is looked up at its first
occurrence and `set` leaves exactly one entry for the key it writes. -/
abbrev Store := List (String × String)

/-- Go `v, ok := m[k]`: `some v` when the key is present. -/
def Store.get : Store → String → Option String
  | [], _ => none
  | (k', v) :: r, k => if k' = k then some v else Store.get r k

/-- Go `m[k]` as an expression: the zero value `""` for a missing key. -/
def Store.getD (m : Store) (k : String) : String := (m.get k).getD ""

/-- The map without the key `k`. -/
def Store.erase : Store → String → Store
  | [], _ => []
  | (k', v) :: r, k => if k' = k then Store.erase r k else (k', v) :: Store.erase r k

/-- Go `m[k] = v`. -/
def Store.set (m : Store) (k v : String) : Store :=
  (k, v) :: m.erase k

/-- The reserved key that holds the Microsoft hit counter in the same map. -/
def microsoftCount : String := "microsoftCount"

/-- The entries written back to `instock.csv` at the end of a run: the loop at the
end of `main` skips every entry whose timestamp is the empty string. -/
def persist : Store → Store
  | [] => []
  | (url, timestamp) :: r =>
    if timestamp ≠ "" then (url, timestamp) :: persist r else persist r

/-! ## The file `instock.csv` -/

/-- Go `bufio.MaxScanTokenSize`, the size limit of the buffer of a default `Scanner`. -/
def MaxScanTokenSize : Nat := 64 * 1024

/-- Length in bytes of the UTF-8 encoding of a character list. -/
def byteLen (l : List Char) : Nat := (l.map Char.utf8Size).sum

/-- The lines of a text, cut at every line feed; a last line without line feed counts
when it is not empty. `cur` is the line being read. -/
def linesAux : List Char → List Char → List (List Char)
  | cur, [] => if cur = [] then [] else [cur]
  | cur, c :: cs => if c = '\n' then cur :: linesAux [] cs else linesAux (cur ++ [c]) cs

/-- The helper `dropCR` of `bufio.ScanLines`: one trailing carriage return is removed. -/
def dropCR (l : List Char) : List Char :=
  if l.getLast? = some '\r' then l.dropLast else l

/-- The successive values of `scanner.Text()` while `scanner.Scan()` returns true, for a
default `bufio.Scanner` over a file with content `data`: the lines without their end
marker, up to the first line that does not fit the buffer (`ErrTooLong` stops the scan,
and `main` does not look at the scanner's error). -/
def scanLines (data : String) : List String :=
  ((linesAux [] data.data).takeWhile (fun l => decide (byteLen l < MaxScanTokenSize))).map
    (fun l => String.mk (dropCR l))

/-- One iteration of the loading loop: `alertAlreadySent[line[0]] = line[1]`; `none` is
the run-time panic (index out of range) on a line without a comma. -/
def loadLine (m : Store) (text : String) : Option Store :=
  match Split text with
  | k :: v :: _ => some (m.set k v)
  | _ => none

/-- The loading loop `for scanner.Scan()` over the scanned lines, from the map `m`. -/
def loadLines : Store → List String → Option Store
  | m, [] => some m
  | m, text :: rest =>
    match loadLine m text with
    | some m' => loadLines m' rest
    | none => none

/-- The loading of `instock.csv` at the start of `main`, from the content of the file. -/
def loadStore (data : String) : Option Store :=
  loadLines [] (scanLines data)

/-- The content written to the truncated `instock.csv` when `range alertAlreadySent`
visits the entries in the order `order`. -/
def writeStore : Store → String
  | [] => ""
  | (url, timestamp) :: r =>
    if timestamp ≠ "" then url ++ "," ++ timestamp ++ "\n" ++ writeStore r else writeStore r

/-! ## The monitoring loop -/

/-- The error value of a `rod.Try` call, as far as `main` tells the cases apart:
`nil`, an error for which `errors.Is(err, context.DeadlineExceeded)` holds, any other. -/
inductive TryErr where
  | nil
  | deadlineExceeded
  | other
  deriving DecidableEq, Repr

/-- One line of `urls.csv`. -/
structure urlToCheck where
  url : String
  outOfStockMessage : String
  elementType : String
  phrase : String
  product : String
  inStockMessage : String
  deriving DecidableEq, Repr

/-- The results of the calls one loop iteration can make to the browser and to Twitter.
A call that the iteration does not reach leaves its field unread. Opening the page and
taking a screenshot are taken to succeed. -/
structure Probe where
  /-- Result of `MustElementR(item.elementType, item.phrase)` under its 30 s timeout. -/
  elementR : TryErr
  /-- Result of `WaitNavigation` in the `microsoft.co` branch. -/
  microsoftIdle : TryErr
  /-- Result of `WaitNavigation` in the `xbox.com` branch. -/
  xboxIdle : TryErr
  /-- Result of `MustSearch(item.outOfStockMessage)`. -/
  outOfStock : TryErr
  /-- Result of `MustSearch(item.inStockMessage)`. -/
  inStock : TryErr
  /-- Whether `getClient` returned an error. -/
  clientErr : Bool
  /-- Whether `twitterClient.Statuses.Update` returned an error. -/
  updateErr : Bool
  deriving DecidableEq, Repr

/-- A status update that Twitter accepted: the target and the `todayNow` of the
iteration that sent it. -/
structure Tweet where
  url : String
  product : String
  todayNow : Int
  deriving DecidableEq, Repr

/-- The variables of `main` that the loop changes, with the log of the tweets sent. -/
structure RunState where
  alertAlreadySent : Store
  atLeastOneInStock : Bool
  tweets : List Tweet
  deriving DecidableEq, Repr

/-- How a loop iteration ends: the loop goes on (`next`), or `check` has called
`log.Fatal` and the process has exited (`fatal`). -/
inductive Step where
  | next (st : RunState)
  | fatal (st : RunState)
  deriving DecidableEq, Repr

/-- The body of `for _, item := range urlList`, for the target `item`, the clock value
`todayNow = start.UnixNano()` and the results `p` of the external calls. -/
def processItem (st : RunState) (item : urlToCheck) (todayNow : Int) (p : Probe) : Step :=
  let m := st.alertAlreadySent
  let alreadyAlerted := (m.get item.url).isSome
  match p.elementR with
  | TryErr.deadlineExceeded => Step.next st
  | TryErr.other => Step.next st
  | TryErr.nil =>
    if alreadyAlerted && decide (wrap64 (todayNow - ParseInt (m.getD item.url) 64) < cooldown) then
      Step.next { st with atLeastOneInStock := true }
    else
      let clearAlert := alreadyAlerted
      let ms := Contains item.url "microsoft.co"
      let count : Int := if ms then ParseInt (m.getD microsoftCount) 32 + 1 else 0
      let m1 := if ms then m.set microsoftCount "0" else m
      if ms && decide (p.microsoftIdle ≠ TryErr.nil) then
        Step.next { st with alertAlreadySent := m1 }
      else if Contains item.url "xbox.com" && decide (p.xboxIdle ≠ TryErr.nil) then
        Step.next { st with alertAlreadySent := m1 }
      else
        let m2 := if p.outOfStock = TryErr.nil ∧ clearAlert = true then m1.set item.url "" else m1
        if p.outOfStock = TryErr.deadlineExceeded then
          if item.inStockMessage ≠ "" ∧ p.inStock ≠ TryErr.nil then
            Step.next { st with alertAlreadySent := m2.set item.url "" }
          else
            let hit := Contains item.url "microsoft"
            let m3 := if hit then m2.set microsoftCount (FormatInt count) else m2
            if hit && decide (count ≤ 3) then
              Step.next { st with alertAlreadySent := m3 }
            else
              let m4 := if hit then m3.set microsoftCount "0" else m3
              if alreadyAlerted then
                Step.next { st with alertAlreadySent := m4.set item.url (FormatInt todayNow),
                                    atLeastOneInStock := true }
              else if p.clientErr then
                Step.fatal { st with alertAlreadySent := m4, atLeastOneInStock := true }
              else if p.updateErr then
                Step.fatal { st with alertAlreadySent := m4, atLeastOneInStock := true }
              else
                Step.next { alertAlreadySent := m4.set item.url (FormatInt todayNow),
                            atLeastOneInStock := true,
                            tweets := st.tweets ++ [⟨item.url, item.product, todayNow⟩] }
        else
          Step.next { st with alertAlreadySent := m2 }

/-- One visit of the loop: a target, the clock value and the external results. -/
abbrev Visit := urlToCheck × Int × Probe

/-- The loop `for _, item := range urlList`; it stops at a fatal exit. -/
def runItems : RunState → List Visit → Step
  | st, [] => Step.next st
  | st, (item, todayNow, p) :: rest =>
    match processItem st item todayNow p with
    | Step.next st' => runItems st' rest
    | Step.fatal st' => Step.fatal st'

/-- One run of `main` on the map loaded from `instock.csv`: the entries written back
(`none` when the process exits before the file is rewritten, which leaves it as it was)
and the tweets sent. -/
def runMain (loaded : Store) (visits : List Visit) : Option Store × List Tweet :=
  match runItems ⟨loaded, false, []⟩ visits with
  | Step.next st => (some (persist st.alertAlreadySent), st.tweets)
  | Step.fatal st => (none, st.tweets)

/-- One run of `main`: the visits of its loop, and the order in which the final
`for url, timestamp := range alertAlreadySent` visits the entries of the map (Go leaves
the order of a map iteration open; `order m` lists the entries of `m`). -/
structure Run where
  visits : List Visit
  order : Store → Store

/-- One run of `main` on the content `file` of `instock.csv`: the content of the file after
the run and the tweets sent, appended to `log`. The map is loaded from the file by the
scanner loop; a run that ends in `log.Fatal` leaves the file as it was; `none` is the
panic of the loading loop, before any visit. -/
def runFile (file : String) (log : List Tweet) (r : Run) : Option (String × List Tweet) :=
  match loadStore file with
  | none => none
  | some loaded =>
    match runItems ⟨loaded, false, log⟩ r.visits with
    | Step.next st => some (writeStore (r.order st.alertAlreadySent), st.tweets)
    | Step.fatal st => some (file, st.tweets)

/-- Successive runs of `main`, each reading the file `instock.csv` as the run before left
it; the result is the log of the tweets in the order they are sent. When the loading loop
panics the file stays as it is, so every later run panics in the same way. -/
def runCycles : String → List Tweet → List Run → List Tweet
  | _, log, [] => log
  | file, log, r :: rs =>
    match runFile file log r with
    | some (file', log') => runCycles file' log' rs
    | none => log

/-- The variables of `main` when an iteration or a loop has ended, in either way. -/
def Step.state : Step → RunState
  | Step.next st => st
  | Step.fatal st => st

/-! ## Vocabulary of the statements -/

/-- The tweets of a log that are for the target with URL `u`. -/
def tweetsFor (u : String) (log : List Tweet) : List Tweet :=
  log.filter (fun tw => decide (tw.url = u))

/-- The external results with which an iteration for `item` that is not stopped by the
cooldown test reaches the hit counting: presence check passed, the network waits that the
URL asks for passed, the out-of-stock phrase not found in time, and the in-stock phrase
found when one is configured. -/
def confirmedHit (item : urlToCheck) (p : Probe) : Prop :=
  p.elementR = TryErr.nil ∧
  (Contains item.url "microsoft.co" = true → p.microsoftIdle = TryErr.nil) ∧
  (Contains item.url "xbox.com" = true → p.xboxIdle = TryErr.nil) ∧
  p.outOfStock = TryErr.deadlineExceeded ∧
  (item.inStockMessage = "" ∨ p.inStock = TryErr.nil)

instance (item : urlToCheck) (p : Probe) : Decidable (confirmedHit item p) := by
  unfold confirmedHit
  infer_instance

/-- A visit of another target that neither reads nor writes the hit counter and does not
end the run: its URL does not contain "microsoft" and its Twitter calls return no error. -/
def bystander (v : Visit) : Prop :=
  Contains v.1.url "microsoft" = false ∧ v.2.2.clientErr = false ∧ v.2.2.updateErr = false

instance (v : Visit) : Decidable (bystander v) := by
  unfold bystander
  infer_instance

/-- The invariant of the loop behind the spacing of the tweets, for runs whose clock
values from now on are at least `T`: the tweets sent so far for one URL are at least a
cooldown apart, none is for the counter key, and each of them is either older than `T` by a
cooldown or still recorded, with its clock value, in the entry of its URL. -/
def Spaced (T : Int) (s : RunState) : Prop :=
  s.tweets.Pairwise (fun a b => a.url = b.url → cooldown ≤ b.todayNow - a.todayNow) ∧
  ∀ tw ∈ s.tweets, tw.url ≠ microsoftCount ∧
    (tw.todayNow + cooldown ≤ T ∨
      (s.alertAlreadySent.get tw.url = some (FormatInt tw.todayNow) ∧ tw.todayNow ≤ T ∧
        -2 ^ 63 ≤ tw.todayNow ∧ tw.todayNow < 2 ^ 63))

/-- A string that can stand as a field of a line of `instock.csv`: no comma, no line feed,
no carriage return. -/
def fieldChars (s : String) : Prop := ∀ c ∈ s.data, c ≠ ',' ∧ c ≠ '\n' ∧ c ≠ '\r'

instance (s : String) : Decidable (fieldChars s) := by
  unfold fieldChars
  infer_instance

/-- The characters of the line that the final loop writes for an entry, without the
line feed: `fmt.Sprintf("%v,%v\n", url, timestamp)`. -/
def lineChars (e : String × String) : List Char := e.1.data ++ ',' :: e.2.data

/-- A map that the file `instock.csv` can hold: one entry per key, keys and values that
can stand as fields, and for every entry with a non-empty value a line that fits the
buffer of the scanner. -/
def Storable (m : Store) : Prop :=
  (m.map Prod.fst).Nodup ∧
  ∀ e ∈ m, fieldChars e.1 ∧ fieldChars e.2 ∧
    (e.2 ≠ "" → byteLen (lineChars e) < MaxScanTokenSize)

/-! ## Example data -/

/-- A target of an ordinary shop: no quirk pattern in the URL, no `inStockMessage`. -/
def shopItem : urlToCheck :=
  ⟨"https://shop.example/ps5", "Out of stock", "h1", "PlayStation 5", "PS5", ""⟩

/-- A second ordinary target. -/
def otherItem : urlToCheck :=
  ⟨"https://store.example/xsx", "Sold out", "h1", "Series X", "Xbox", ""⟩

/-- The page loads, the out-of-stock phrase is not found in time, Twitter works. -/
def probeInStock : Probe :=
  ⟨TryErr.nil, TryErr.nil, TryErr.nil, TryErr.deadlineExceeded, TryErr.nil, false, false⟩

/-- As `probeInStock`, but `Statuses.Update` returns an error. -/
def probeUpdateFails : Probe :=
  ⟨TryErr.nil, TryErr.nil, TryErr.nil, TryErr.deadlineExceeded, TryErr.nil, false, true⟩

/-- The page loads and shows the out-of-stock phrase. -/
def probeOutOfStock : Probe :=
  ⟨TryErr.nil, TryErr.nil, TryErr.nil, TryErr.nil, TryErr.nil, false, false⟩

/-- A target with a secondary phrase. -/
def phraseItem : urlToCheck :=
  ⟨"https://shop.example/ps5-disc", "Out of stock", "h1", "PlayStation 5", "PS5 Disc",
    "Add to basket"⟩

/-- A target of the Microsoft store. -/
def microsoftItem : urlToCheck :=
  ⟨"https://www.microsoft.com/en-gb/store/series-x", "Out of stock", "h1", "Series X",
    "Xbox Series X", ""⟩

/-- A retailer page with "microsoft" in its path, with a secondary phrase. -/
def retailerItem : urlToCheck :=
  ⟨"https://shop.example/microsoft-xbox-series-x", "Out of stock", "h1", "Series X",
    "Xbox Series X", "Add to basket"⟩

/-- The page loads, neither the out-of-stock phrase nor the in-stock phrase is found. -/
def probeSecondaryFails : Probe :=
  ⟨TryErr.nil, TryErr.nil, TryErr.nil, TryErr.deadlineExceeded, TryErr.deadlineExceeded,
    false, false⟩

/-- The page loads but the network never falls idle. -/
def probeUnstable : Probe :=
  ⟨TryErr.nil, TryErr.deadlineExceeded, TryErr.deadlineExceeded, TryErr.deadlineExceeded,
    TryErr.nil, false, false⟩

/-- A URL of 65530 bytes: with its four commas it still fits a line of `urls.csv` that
the scanner accepts. -/
def longUrl : String := String.mk (List.replicate 65530 'a')

/-- An ordinary target with the long URL. -/
def longItem : urlToCheck :=
  ⟨longUrl, "Out of stock", "h1", "PlayStation 5", "PS5", ""⟩

/-- A clock value in nanoseconds since 1970 (14 November 2023). -/
def clock0 : Int := 1700000000000000000

/-- Four runs: a hit for two targets, a second hit one minute later, the out-of-stock
phrase seven minutes after the first hit, and a new hit one minute after that. -/
def exampleCycles : List Run :=
  [⟨[(shopItem, clock0, probeInStock), (otherItem, clock0 + 1, probeInStock)], id⟩,
   ⟨[(shopItem, clock0 + 60000000000, probeInStock)], List.reverse⟩,
   ⟨[(shopItem, clock0 + 420000000000, probeOutOfStock)], id⟩,
   ⟨[(shopItem, clock0 + 480000000000, probeInStock)], List.reverse⟩]

/-- Two runs: the first tweets for one target and exits on the failed tweet for the next,
the second comes one minute later. -/
def cyclesWithFatal : List Run :=
  [⟨[(shopItem, clock0, probeInStock), (otherItem, clock0 + 1, probeUpdateFails)], id⟩,
   ⟨[(shopItem, clock0 + 60000000000, probeInStock)], id⟩]

/-! ## Decimal digits: `FormatInt` followed by `ParseInt` -/

theorem toDigitsCore_append (fuel : Nat) : ∀ (n : Nat) (ds : List Char),
    Nat.toDigitsCore 10 fuel n ds = Nat.toDigitsCore 10 fuel n [] ++ ds := by
  induction fuel with
  | zero => intro n ds; simp [Nat.toDigitsCore]
  | succ f ih =>
    intro n ds
    simp only [Nat.toDigitsCore]
    by_cases h : n / 10 = 0
    · simp [h]
    · simp only [h, if_false]
      rw [ih (n / 10) (Nat.digitChar (n % 10) :: ds), ih (n / 10) [Nat.digitChar (n % 10)]]
      simp

theorem toDigitsCore_fuel (fuel : Nat) : ∀ (fuel' n : Nat), n < fuel → n < fuel' →
    Nat.toDigitsCore 10 fuel n [] = Nat.toDigitsCore 10 fuel' n [] := by
  induction fuel with
  | zero => intro fuel' n h; omega
  | succ f ih =>
    intro fuel' n h h'
    obtain ⟨f', rfl⟩ : ∃ f', fuel' = f' + 1 := ⟨fuel' - 1, by omega⟩
    simp only [Nat.toDigitsCore]
    by_cases h0 : n / 10 = 0
    · simp [h0]
    · simp only [h0, if_false]
      rw [toDigitsCore_append f, toDigitsCore_append f']
      rw [ih f' (n / 10) (by omega) (by omega)]

theorem toDigits_lt (n : Nat) (h : n < 10) : Nat.toDigits 10 n = [Nat.digitChar n] := by
  have h0 : n / 10 = 0 := by omega
  have h1 : n % 10 = n := by omega
  simp [Nat.toDigits, Nat.toDigitsCore, h0, h1]

theorem toDigits_ge (n : Nat) (h : 10 ≤ n) :
    Nat.toDigits 10 n = Nat.toDigits 10 (n / 10) ++ [Nat.digitChar (n % 10)] := by
  have h0 : n / 10 ≠ 0 := by omega
  have e : Nat.toDigits 10 n = Nat.toDigitsCore 10 n (n / 10) [Nat.digitChar (n % 10)] := by
    show Nat.toDigitsCore 10 (n + 1) n [] = _
    rw [Nat.toDigitsCore]
    simp [h0]
  rw [e, toDigitsCore_append]
  show _ = Nat.toDigitsCore 10 (n / 10 + 1) (n / 10) [] ++ _
  rw [toDigitsCore_fuel n (n / 10 + 1) (n / 10) (by omega) (by omega)]


theorem digitChar_isDigit (d : Nat) (h : d < 10) :
    ('0' ≤ Nat.digitChar d ∧ Nat.digitChar d ≤ '9') ∧ (Nat.digitChar d).toNat - '0'.toNat = d := by
  interval_cases d <;> decide

theorem parseUintLoop_cons (M : Nat) (c : Char) (cs : List Char) (n : Nat) :
    parseUintLoop M (c :: cs) n =
      if '0' ≤ c ∧ c ≤ '9' then
        if n ≥ (2 ^ 64 - 1) / 10 + 1 then (M, NumErr.rangeErr)
        else
          if (n * 10 + (c.toNat - '0'.toNat)) % 2 ^ 64 < n * 10 ∨
              (n * 10 + (c.toNat - '0'.toNat)) % 2 ^ 64 > M then (M, NumErr.rangeErr)
          else parseUintLoop M cs ((n * 10 + (c.toNat - '0'.toNat)) % 2 ^ 64)
      else (0, NumErr.syntaxErr) := rfl

theorem parseUintLoop_snoc (M : Nat) (c : Char) : ∀ (l : List Char) (a : Nat),
    parseUintLoop M (l ++ [c]) a =
      if (parseUintLoop M l a).2 = NumErr.nil then parseUintLoop M [c] (parseUintLoop M l a).1
      else parseUintLoop M l a := by
  intro l
  induction l with
  | nil => intro a; simp [parseUintLoop]
  | cons x xs ih =>
    intro a
    rw [List.cons_append, parseUintLoop_cons M x (xs ++ [c]) a, parseUintLoop_cons M x xs a]
    by_cases h1 : '0' ≤ x ∧ x ≤ '9'
    · by_cases h2 : a ≥ (2 ^ 64 - 1) / 10 + 1
      · rw [if_pos h1, if_pos h1, if_pos h2, if_pos h2]
        simp
      · by_cases h3 : (a * 10 + (x.toNat - '0'.toNat)) % 2 ^ 64 < a * 10 ∨
            (a * 10 + (x.toNat - '0'.toNat)) % 2 ^ 64 > M
        · simp only [h1, h2, h3, and_self, if_true, if_false]
          simp
        · simp only [h1, h2, h3, and_self, if_true, if_false]
          exact ih _
    · simp [h1]

theorem parseUintLoop_toDigits (M : Nat) (hM : M < 2 ^ 64) : ∀ n : Nat, n ≤ M →
    parseUintLoop M (Nat.toDigits 10 n) 0 = (n, NumErr.nil) := by
  intro n
  induction n using Nat.strong_induction_on with
  | _ n ih =>
    intro hn
    have key : ∀ (a d : Nat), d < 10 → a * 10 + d ≤ M →
        parseUintLoop M [Nat.digitChar d] a = (a * 10 + d, NumErr.nil) := by
      intro a d hd hle
      obtain ⟨h1, h2⟩ := digitChar_isDigit d hd
      have hc : ¬ (a ≥ (2 ^ 64 - 1) / 10 + 1) := by
        norm_num at hM ⊢; omega
      have hm : (a * 10 + d) % 2 ^ 64 = a * 10 + d := Nat.mod_eq_of_lt (by omega)
      simp only [parseUintLoop, h1, and_self, if_true, hc, if_false, h2, hm]
      rw [if_neg (by omega)]
    by_cases h : n < 10
    · rw [toDigits_lt n h]
      simpa using key 0 n h (by omega)
    · rw [toDigits_ge n (by omega), parseUintLoop_snoc, ih (n / 10) (by omega) (by omega)]
      simp only [if_true]
      rw [key (n / 10) (n % 10) (by omega) (by omega)]
      congr 1
      omega

theorem toDigits_head (n : Nat) :
    ∃ d rest, d < 10 ∧ Nat.toDigits 10 n = Nat.digitChar d :: rest := by
  induction n using Nat.strong_induction_on with
  | _ n ih =>
    by_cases h : n < 10
    · exact ⟨n, [], h, toDigits_lt n h⟩
    · obtain ⟨d, rest, hd, e⟩ := ih (n / 10) (by omega)
      exact ⟨d, rest ++ [Nat.digitChar (n % 10)], hd, by rw [toDigits_ge n (by omega), e]; rfl⟩

theorem parseIntAbs_toDigits (neg : Bool) (n : Nat) (h : n < 2 ^ 63 ∨ (neg = true ∧ n ≤ 2 ^ 63)) :
    parseIntAbs neg (Nat.toDigits 10 n) 64 = if neg then -(n : Int) else (n : Int) := by
  obtain ⟨d, rest, _, e⟩ := toDigits_head n
  have hne : Nat.toDigits 10 n ≠ [] := by rw [e]; simp
  have hp : ParseUint (Nat.toDigits 10 n) 64 = (n, NumErr.nil) := by
    unfold ParseUint
    rw [if_neg hne]
    exact parseUintLoop_toDigits _ (by norm_num) n (by norm_num; omega)
  unfold parseIntAbs
  simp only [hp]
  cases neg with
  | false =>
    have hn : n < 2 ^ 63 := by simpa using h
    simp
    intro h'
    norm_num at h' hn
    omega
  | true =>
    have hn : n ≤ 2 ^ 63 := by rcases h with h | h <;> omega
    simp
    intro h'
    norm_num at h' hn
    omega

/-- `strconv.ParseInt` reads back what `strconv.FormatInt` wrote, for every `int64`. -/
theorem ParseInt_FormatInt (i : Int) (lo : -2 ^ 63 ≤ i) (hi : i < 2 ^ 63) :
    ParseInt (FormatInt i) 64 = i := by
  obtain ⟨d, rest, hd, e⟩ := toDigits_head i.natAbs
  have hplus : Nat.digitChar d ≠ '+' := by interval_cases d <;> decide
  have hminus : Nat.digitChar d ≠ '-' := by interval_cases d <;> decide
  by_cases hneg : i < 0
  · have e1 : (FormatInt i).data = '-' :: Nat.toDigits 10 i.natAbs := by
      simp [FormatInt, hneg, Nat.repr, List.asString]
    unfold ParseInt
    rw [e1]
    show parseIntAbs true (Nat.toDigits 10 i.natAbs) 64 = i
    rw [parseIntAbs_toDigits true _ (Or.inr ⟨rfl, by omega⟩)]
    simp only [if_true]
    omega
  · have e1 : (FormatInt i).data = Nat.toDigits 10 i.natAbs := by
      simp [FormatInt, hneg, Nat.repr, List.asString]
    have e2 : ParseInt (FormatInt i) 64 = parseIntAbs false (Nat.toDigits 10 i.natAbs) 64 := by
      unfold ParseInt
      rw [e1, e]
      split
      · simp_all
      · simp_all
      · simp_all
      · simp_all
    rw [e2, parseIntAbs_toDigits false _ (Or.inl (by omega))]
    simp only [Bool.false_eq_true, if_false]
    omega

/-- `strconv.FormatInt` never returns the empty string. -/
theorem FormatInt_ne_empty (i : Int) : FormatInt i ≠ "" := by
  obtain ⟨d, rest, _, e⟩ := toDigits_head i.natAbs
  intro h
  have h2 : (FormatInt i).data = [] := by rw [h]
  by_cases hneg : i < 0
  · simp [FormatInt, hneg, Nat.repr, List.asString] at h2
  · simp [FormatInt, hneg, Nat.repr, List.asString, e] at h2

/-! ## The map: lookups after writes -/

theorem get_erase_ne (k k' : String) (h : k' ≠ k) : ∀ m : Store,
    Store.get (m.erase k) k' = Store.get m k' := by
  intro m
  induction m with
  | nil => rfl
  | cons e r ih =>
    obtain ⟨a, b⟩ := e
    by_cases ha : a = k
    · have hak : ¬ a = k' := fun h' => h (h'.symm.trans ha)
      simp only [Store.erase, ha, if_true, Store.get]
      rw [ih, if_neg (ha ▸ hak)]
    · simp only [Store.erase, ha, if_false, Store.get, ih]

theorem mem_erase (k : String) (e : String × String) : ∀ m : Store,
    e ∈ m.erase k ↔ e ∈ m ∧ e.1 ≠ k := by
  intro m
  induction m with
  | nil => simp [Store.erase]
  | cons x r ih =>
    obtain ⟨a, b⟩ := x
    by_cases ha : a = k
    · simp only [Store.erase, ha, if_true, ih, List.mem_cons]
      constructor
      · intro h; exact ⟨Or.inr h.1, h.2⟩
      · rintro ⟨h | h, h2⟩
        · exact absurd (by rw [h]) h2
        · exact ⟨h, h2⟩
    · simp only [Store.erase, ha, if_false, List.mem_cons, ih]
      constructor
      · rintro (h | h)
        · exact ⟨Or.inl h, by rw [h]; exact ha⟩
        · exact ⟨Or.inr h.1, h.2⟩
      · rintro ⟨h | h, h2⟩
        · exact Or.inl h
        · exact Or.inr ⟨h, h2⟩

theorem mem_persist (e : String × String) : ∀ m : Store,
    e ∈ persist m ↔ e ∈ m ∧ e.2 ≠ "" := by
  intro m
  induction m with
  | nil => simp [persist]
  | cons x r ih =>
    obtain ⟨a, b⟩ := x
    by_cases hb : b = ""
    · simp only [persist, hb, ne_eq, not_true_eq_false, if_false, ih, List.mem_cons]
      constructor
      · intro h; exact ⟨Or.inr h.1, h.2⟩
      · rintro ⟨h | h, h2⟩
        · exact absurd (by rw [h]) h2
        · exact ⟨h, h2⟩
    · simp only [persist, hb, ne_eq, not_false_eq_true, if_true, List.mem_cons, ih]
      constructor
      · rintro (h | h)
        · exact ⟨Or.inl h, by rw [h]; exact hb⟩
        · exact ⟨Or.inr h.1, h.2⟩
      · rintro ⟨h | h, h2⟩
        · exact Or.inl h
        · exact Or.inr ⟨h, h2⟩

theorem get_set_self (m : Store) (k v : String) : (m.set k v).get k = some v := by
  simp [Store.set, Store.get]

theorem get_set_ne (m : Store) (k v k' : String) (h : k' ≠ k) :
    (m.set k v).get k' = m.get k' := by
  have h' : ¬ k = k' := fun e => h e.symm
  simp only [Store.set, Store.get, h', if_false]
  exact get_erase_ne k k' h m

theorem get_eq_none_iff (k : String) : ∀ m : Store,
    Store.get m k = none ↔ ∀ e ∈ m, e.1 ≠ k := by
  intro m
  induction m with
  | nil => simp [Store.get]
  | cons e r ih =>
    obtain ⟨a, b⟩ := e
    by_cases ha : a = k <;> simp [Store.get, ha, ih]

theorem get_persist_some (k v : String) (hv : v ≠ "") : ∀ m : Store,
    Store.get m k = some v → Store.get (persist m) k = some v := by
  intro m
  induction m with
  | nil => simp [Store.get]
  | cons e r ih =>
    obtain ⟨a, b⟩ := e
    intro h
    by_cases ha : a = k
    · simp only [Store.get, ha, if_true, Option.some.injEq] at h
      subst h
      simp [persist, hv, Store.get, ha]
    · simp only [Store.get, ha, if_false] at h
      have := ih h
      by_cases hb : b = ""
      · simpa [persist, hb] using this
      · simpa [persist, hb, Store.get, ha] using this

theorem persist_set_empty (m : Store) (k : String) :
    Store.get (persist (m.set k "")) k = none := by
  rw [get_eq_none_iff]
  intro e he
  rw [mem_persist] at he
  obtain ⟨he1, he2⟩ := he
  simp only [Store.set, List.mem_cons] at he1
  rcases he1 with h | h
  · exact absurd (by rw [h]) he2
  · exact ((mem_erase k e m).1 h).2

/-- Inside the `int64` range the wrap-around is the identity. -/
theorem wrap64_of_range (x : Int) (lo : -2 ^ 63 ≤ x) (hi : x < 2 ^ 63) : wrap64 x = x := by
  unfold wrap64
  rw [Int.emod_eq_of_lt (by omega) (by omega)]
  omega

/-- The cooldown branch of the loop: with an entry for the URL and the cooldown test true,
the iteration ends in `continue` with only `atLeastOneInStock` possibly set. -/
theorem processItem_skip (st : RunState) (item : urlToCheck) (todayNow : Int) (p : Probe)
    (v : String) (hget : st.alertAlreadySent.get item.url = some v)
    (hage : wrap64 (todayNow - ParseInt v 64) < cooldown) :
    ∃ st', processItem st item todayNow p = Step.next st' ∧
      st'.alertAlreadySent = st.alertAlreadySent ∧ st'.tweets = st.tweets := by
  have hD : st.alertAlreadySent.getD item.url = v := by simp [Store.getD, hget]
  unfold processItem
  cases hp : p.elementR <;> simp [hget, hD, hage]

/-! ## C2 -/

/-- C2: when the entry of a target holds a value that `ParseInt` reads as the timestamp
`n` and `todayNow - n`, as an `int64`, is below 5 minutes, the iteration sends no tweet
and leaves the map `alertAlreadySent` as it was, whatever the presence check, the network
waits, the phrase searches and the Twitter calls would return. -/
theorem C2_cooldown_skip (st : RunState) (item : urlToCheck) (todayNow : Int) (p : Probe)
    (v : String) (n : Int) (hget : st.alertAlreadySent.get item.url = some v)
    (hn : ParseInt v 64 = n) (hage : wrap64 (todayNow - n) < cooldown) :
    ∃ st', processItem st item todayNow p = Step.next st' ∧
      st'.alertAlreadySent = st.alertAlreadySent ∧ st'.tweets = st.tweets :=
  processItem_skip st item todayNow p v hget (by rw [hn]; exact hage)

theorem C2_cooldown_skip_witness :
    ∃ st', processItem ⟨[(shopItem.url, "1700000000000000000")], false, []⟩ shopItem
        (clock0 + 60000000000) probeInStock = Step.next st' ∧
      st'.alertAlreadySent = [(shopItem.url, "1700000000000000000")] ∧ st'.tweets = [] :=
  C2_cooldown_skip ⟨[(shopItem.url, "1700000000000000000")], false, []⟩ shopItem
    (clock0 + 60000000000) probeInStock "1700000000000000000" clock0 (by decide) (by decide)
    (by decide)

/-! ## Substring tests on URLs -/

theorem hasInfix_of_append (a b : List Char) : ∀ l : List Char,
    hasInfix l (a ++ b) = true → hasInfix l a = true := by
  intro l
  induction l with
  | nil =>
    intro h
    cases a <;> simp_all [hasInfix]
  | cons c cs ih =>
    intro h
    simp only [hasInfix, Bool.or_eq_true] at h ⊢
    rcases h with h | h
    · left
      rw [List.isPrefixOf_iff_prefix] at h ⊢
      exact (List.prefix_append a b).trans h
    · exact Or.inr (ih h)

/-- A URL that contains "microsoft.co" contains "microsoft". -/
theorem Contains_microsoft (u : String) (h : Contains u "microsoft.co" = true) :
    Contains u "microsoft" = true :=
  hasInfix_of_append "microsoft".data ".co".data u.data h

/-- The counter key is not a URL that contains "microsoft.co". -/
theorem ne_microsoftCount (u : String) (h : Contains u "microsoft.co" = true) :
    u ≠ microsoftCount := by
  intro e
  rw [e] at h
  exact absurd h (by decide)

theorem runItems_append (pre rest : List Visit) : ∀ st st' : RunState,
    runItems st pre = Step.next st' → runItems st (pre ++ rest) = runItems st' rest := by
  induction pre with
  | nil => intro st st' h; simp [runItems] at h; simp [h]
  | cons v vs ih =>
    intro st st' h
    obtain ⟨item, t, p⟩ := v
    simp only [runItems, List.cons_append] at h ⊢
    cases hp : processItem st item t p with
    | next s1 => rw [hp] at h; simp only at h ⊢; exact ih s1 st' h
    | fatal s1 => rw [hp] at h; simp at h

/-! ## C1 -/

/-- C1 (as the code has it): when an iteration reaches the sending of the tweet (no entry
for the URL, presence check and network waits passed, out-of-stock search timed out,
secondary check passed or not configured, debounce passed, credentials accepted) and
`Statuses.Update` returns an error, `check` ends the process: the entry of the target is
not set, the tweet log is unchanged, no later target is processed and `instock.csv` is
not rewritten. -/
theorem C1_update_failure_is_fatal (st : RunState) (item : urlToCheck) (todayNow : Int)
    (p : Probe) (rest : List Visit)
    (hget : st.alertAlreadySent.get item.url = none)
    (hel : p.elementR = TryErr.nil)
    (hms : Contains item.url "microsoft.co" = true → p.microsoftIdle = TryErr.nil)
    (hxb : Contains item.url "xbox.com" = true → p.xboxIdle = TryErr.nil)
    (hout : p.outOfStock = TryErr.deadlineExceeded)
    (hin : item.inStockMessage = "" ∨ p.inStock = TryErr.nil)
    (hdeb : Contains item.url "microsoft" = true →
      3 < (if Contains item.url "microsoft.co" = true
            then ParseInt (st.alertAlreadySent.getD microsoftCount) 32 + 1 else 0))
    (hcl : p.clientErr = false) (hup : p.updateErr = true) :
    ∃ st', processItem st item todayNow p = Step.fatal st' ∧
      st'.alertAlreadySent.get item.url = none ∧ st'.tweets = st.tweets ∧
      runItems st ((item, todayNow, p) :: rest) = Step.fatal st' ∧
      ∀ (loaded : Store) (pre : List Visit), runItems ⟨loaded, false, []⟩ pre = Step.next st →
        (runMain loaded (pre ++ (item, todayNow, p) :: rest)).1 = none := by
  have hin' : ¬ (item.inStockMessage ≠ "" ∧ p.inStock ≠ TryErr.nil) := by
    rintro ⟨h1, h2⟩; rcases hin with h | h <;> contradiction
  have main : ∃ st', processItem st item todayNow p = Step.fatal st' ∧
      st'.alertAlreadySent.get item.url = none ∧ st'.tweets = st.tweets := by
    by_cases hmsc : Contains item.url "microsoft.co" = true
    · have hhit := Contains_microsoft _ hmsc
      have hne := ne_microsoftCount _ hmsc
      have hc := hdeb hhit
      rw [if_pos hmsc] at hc
      have hc' : ¬ (ParseInt (st.alertAlreadySent.getD microsoftCount) 32 + 1 ≤ 3) := by omega
      by_cases hx : Contains item.url "xbox.com" = true
      · simp [processItem, hget, hel, hmsc, hms hmsc, hx, hxb hx, hout, hin', hhit, hc', hcl,
          hup, get_set_ne _ _ _ _ hne]
      · simp [processItem, hget, hel, hmsc, hms hmsc, hx, hout, hin', hhit, hc', hcl, hup,
          get_set_ne _ _ _ _ hne]
    · have hhit : ¬ Contains item.url "microsoft" = true := by
        intro h
        have := hdeb h
        rw [if_neg hmsc] at this
        omega
      by_cases hx : Contains item.url "xbox.com" = true
      · simp [processItem, hget, hel, hmsc, hx, hxb hx, hout, hin', hhit, hcl, hup]
      · simp [processItem, hget, hel, hmsc, hx, hout, hin', hhit, hcl, hup]
  obtain ⟨st', h1, h2, h3⟩ := main
  refine ⟨st', h1, h2, h3, ?_, ?_⟩
  · simp [runItems, h1]
  · intro loaded pre hpre
    have : runItems ⟨loaded, false, []⟩ (pre ++ (item, todayNow, p) :: rest) = Step.fatal st' := by
      rw [runItems_append pre _ _ _ hpre]
      simp [runItems, h1]
    simp [runMain, this]

theorem C1_update_failure_is_fatal_witness :
    ∃ st', processItem ⟨[], false, []⟩ shopItem clock0 probeUpdateFails = Step.fatal st' ∧
      st'.alertAlreadySent.get shopItem.url = none ∧ st'.tweets = [] ∧
      runItems ⟨[], false, []⟩
        ((shopItem, clock0, probeUpdateFails) :: [(otherItem, clock0 + 1, probeInStock)]) =
          Step.fatal st' ∧
      ∀ (loaded : Store) (pre : List Visit),
        runItems ⟨loaded, false, []⟩ pre = Step.next ⟨[], false, []⟩ →
        (runMain loaded (pre ++ (shopItem, clock0, probeUpdateFails) ::
          [(otherItem, clock0 + 1, probeInStock)])).1 = none :=
  C1_update_failure_is_fatal ⟨[], false, []⟩ shopItem clock0 probeUpdateFails
    [(otherItem, clock0 + 1, probeInStock)] (by decide) (by decide) (by decide) (by decide)
    (by decide) (by decide) (by decide) (by decide) (by decide)

/-- C1 fails as stated: with an empty map, a target that reaches the sending of the tweet
and an error from `Statuses.Update`, the iteration does not go on with the entry set to
the clock value, the second target is not processed and nothing is written back. -/
theorem C1_counterexample :
    (¬ ∃ st', processItem ⟨[], false, []⟩ shopItem clock0 probeUpdateFails = Step.next st' ∧
        st'.alertAlreadySent.get shopItem.url = some (FormatInt clock0)) ∧
    runMain [] [(shopItem, clock0, probeUpdateFails), (otherItem, clock0 + 1, probeInStock)] =
      (none, []) := by
  constructor
  · rintro ⟨st', h, _⟩
    have e : processItem ⟨[], false, []⟩ shopItem clock0 probeUpdateFails =
        Step.fatal ⟨[], true, []⟩ := by decide
    rw [e] at h
    cases h
  · decide

/-! ## C6 -/

theorem idle_passed (b : Bool) (e : TryErr) (h : b = true → e = TryErr.nil) :
    ¬ (b = true ∧ ¬ e = TryErr.nil) := fun ⟨h1, h2⟩ => h2 (h h1)

/-- An iteration that passes the presence check and the cooldown test, passes the network
waits and finds the out-of-stock phrase, for a target with an entry: the entry becomes the
empty string. -/
theorem processItem_clear (st : RunState) (item : urlToCheck) (todayNow : Int) (p : Probe)
    (v : String) (hget : st.alertAlreadySent.get item.url = some v)
    (hage : ¬ wrap64 (todayNow - ParseInt v 64) < cooldown)
    (hel : p.elementR = TryErr.nil)
    (hms : Contains item.url "microsoft.co" = true → p.microsoftIdle = TryErr.nil)
    (hxb : Contains item.url "xbox.com" = true → p.xboxIdle = TryErr.nil)
    (hout : p.outOfStock = TryErr.nil) :
    ∃ st', processItem st item todayNow p = Step.next st' ∧
      st'.alertAlreadySent.get item.url = some "" ∧
      (persist st'.alertAlreadySent).get item.url = none ∧ st'.tweets = st.tweets := by
  have hD : st.alertAlreadySent.getD item.url = v := by simp [Store.getD, hget]
  have c1 := idle_passed _ _ hms
  have c2 := idle_passed _ _ hxb
  simp [processItem, hget, hD, hage, hel, c1, c2, hout, get_set_self, persist_set_empty]

/-- C6: for a target whose entry holds the timestamp `n`, with a passing presence check
(and network waits) and the out-of-stock phrase found: at every clock value `t` with
`t - n` at least 5 minutes (and representable in `int64`, as it is for clock values after
1970) the entry is cleared, it is the empty string and has no line in the persisted store,
and no tweet is sent; this holds in particular at `t - n` equal to the cooldown and to the
cooldown plus 1 ns. At `t - n` equal to the cooldown minus 1 ns the target is skipped: map
and tweet log are unchanged. -/
theorem C6_cooldown_boundary (st : RunState) (item : urlToCheck) (n : Int) (p : Probe)
    (hget : st.alertAlreadySent.get item.url = some (FormatInt n))
    (lo : -2 ^ 63 ≤ n) (hi : n < 2 ^ 63)
    (hel : p.elementR = TryErr.nil)
    (hms : Contains item.url "microsoft.co" = true → p.microsoftIdle = TryErr.nil)
    (hxb : Contains item.url "xbox.com" = true → p.xboxIdle = TryErr.nil)
    (hout : p.outOfStock = TryErr.nil) :
    (∀ t : Int, cooldown ≤ t - n → t - n < 2 ^ 63 →
      ∃ st', processItem st item t p = Step.next st' ∧
        st'.alertAlreadySent.get item.url = some "" ∧
        (persist st'.alertAlreadySent).get item.url = none ∧ st'.tweets = st.tweets) ∧
    (∃ st', processItem st item (n + cooldown) p = Step.next st' ∧
        st'.alertAlreadySent.get item.url = some "" ∧
        (persist st'.alertAlreadySent).get item.url = none ∧ st'.tweets = st.tweets) ∧
    (∃ st', processItem st item (n + cooldown + 1) p = Step.next st' ∧
        st'.alertAlreadySent.get item.url = some "" ∧
        (persist st'.alertAlreadySent).get item.url = none ∧ st'.tweets = st.tweets) ∧
    (∃ st', processItem st item (n + cooldown - 1) p = Step.next st' ∧
        st'.alertAlreadySent = st.alertAlreadySent ∧ st'.tweets = st.tweets) := by
  have hparse := ParseInt_FormatInt n lo hi
  have gen : ∀ t : Int, cooldown ≤ t - n → t - n < 2 ^ 63 →
      ∃ st', processItem st item t p = Step.next st' ∧
        st'.alertAlreadySent.get item.url = some "" ∧
        (persist st'.alertAlreadySent).get item.url = none ∧ st'.tweets = st.tweets := by
    intro t h1 h2
    have hc : (0 : Int) ≤ cooldown := by decide
    apply processItem_clear st item t p (FormatInt n) hget _ hel hms hxb hout
    rw [hparse, wrap64_of_range _ (by omega) h2]
    omega
  refine ⟨gen, gen _ ?_ ?_, gen _ ?_ ?_, ?_⟩
  · omega
  · have : n + cooldown - n = cooldown := by omega
    rw [this]; decide
  · omega
  · have : n + cooldown + 1 - n = cooldown + 1 := by omega
    rw [this]; decide
  · apply processItem_skip st item (n + cooldown - 1) p (FormatInt n) hget
    rw [hparse]
    have : n + cooldown - 1 - n = cooldown - 1 := by omega
    rw [this]; decide

theorem C6_cooldown_boundary_witness :
    (∀ t : Int, cooldown ≤ t - clock0 → t - clock0 < 2 ^ 63 →
      ∃ st', processItem ⟨[(shopItem.url, "1700000000000000000")], true, []⟩ shopItem t
          probeOutOfStock = Step.next st' ∧
        st'.alertAlreadySent.get shopItem.url = some "" ∧
        (persist st'.alertAlreadySent).get shopItem.url = none ∧ st'.tweets = []) ∧
    (∃ st', processItem ⟨[(shopItem.url, "1700000000000000000")], true, []⟩ shopItem
          (clock0 + cooldown) probeOutOfStock = Step.next st' ∧
        st'.alertAlreadySent.get shopItem.url = some "" ∧
        (persist st'.alertAlreadySent).get shopItem.url = none ∧ st'.tweets = []) ∧
    (∃ st', processItem ⟨[(shopItem.url, "1700000000000000000")], true, []⟩ shopItem
          (clock0 + cooldown + 1) probeOutOfStock = Step.next st' ∧
        st'.alertAlreadySent.get shopItem.url = some "" ∧
        (persist st'.alertAlreadySent).get shopItem.url = none ∧ st'.tweets = []) ∧
    (∃ st', processItem ⟨[(shopItem.url, "1700000000000000000")], true, []⟩ shopItem
          (clock0 + cooldown - 1) probeOutOfStock = Step.next st' ∧
        st'.alertAlreadySent = [(shopItem.url, "1700000000000000000")] ∧ st'.tweets = []) :=
  C6_cooldown_boundary ⟨[(shopItem.url, "1700000000000000000")], true, []⟩ shopItem clock0
    probeOutOfStock (by decide) (by decide) (by decide) (by decide) (by decide) (by decide)
    (by decide)

/-! ## C8 -/

/-- C8: for a target with a non-empty `inStockMessage`, when the presence check (and the
network waits) pass, the search for the out-of-stock phrase times out and the search for
`inStockMessage` fails, the iteration sends no tweet and leaves the entry of the target
empty, so that the persisted store has no line for it; this holds when the target had no
entry and when it had an entry with a timestamp at least 5 minutes old. -/
theorem C8_secondary_check_failsafe (st : RunState) (item : urlToCheck) (t : Int) (p : Probe)
    (hphrase : item.inStockMessage ≠ "")
    (hel : p.elementR = TryErr.nil)
    (hms : Contains item.url "microsoft.co" = true → p.microsoftIdle = TryErr.nil)
    (hxb : Contains item.url "xbox.com" = true → p.xboxIdle = TryErr.nil)
    (hout : p.outOfStock = TryErr.deadlineExceeded)
    (hin : p.inStock ≠ TryErr.nil)
    (hstate : st.alertAlreadySent.get item.url = none ∨
      ∃ n : Int, st.alertAlreadySent.get item.url = some (FormatInt n) ∧
        -2 ^ 63 ≤ n ∧ n < 2 ^ 63 ∧ cooldown ≤ t - n ∧ t - n < 2 ^ 63) :
    ∃ st', processItem st item t p = Step.next st' ∧ st'.tweets = st.tweets ∧
      st'.alertAlreadySent.get item.url = some "" ∧
      (persist st'.alertAlreadySent).get item.url = none := by
  have c1 := idle_passed _ _ hms
  have c2 := idle_passed _ _ hxb
  rcases hstate with hget | ⟨n, hget, lo, hi, h1, h2⟩
  · simp [processItem, hget, hel, c1, c2, hout, hphrase, hin, get_set_self, persist_set_empty]
  · have hD : st.alertAlreadySent.getD item.url = FormatInt n := by simp [Store.getD, hget]
    have hc : (0 : Int) ≤ cooldown := by decide
    have hage : ¬ wrap64 (t - ParseInt (FormatInt n) 64) < cooldown := by
      rw [ParseInt_FormatInt n lo hi, wrap64_of_range _ (by omega) h2]
      omega
    simp [processItem, hget, hD, hage, hel, c1, c2, hout, hphrase, hin, get_set_self,
      persist_set_empty]

theorem C8_secondary_check_failsafe_witness :
    ∃ st', processItem ⟨[(phraseItem.url, "1700000000000000000")], false, []⟩ phraseItem
        (clock0 + 360000000000) probeSecondaryFails = Step.next st' ∧ st'.tweets = [] ∧
      st'.alertAlreadySent.get phraseItem.url = some "" ∧
      (persist st'.alertAlreadySent).get phraseItem.url = none :=
  C8_secondary_check_failsafe ⟨[(phraseItem.url, "1700000000000000000")], false, []⟩
    phraseItem (clock0 + 360000000000) probeSecondaryFails (by decide) (by decide) (by decide)
    (by decide) (by decide) (by decide)
    (Or.inr ⟨clock0, by decide, by decide, by decide, by decide, by decide⟩)

/-! ## C9 -/

/-- C9 (as the code has it): for a target that needs a network-idle wait and passes the
presence check, when that wait fails the iteration ends in `continue` without a tweet and
every entry other than the counter `microsoftCount` is as before. When the URL does not
contain "microsoft.co" the whole map is as before; when it does and the target is not
inside its cooldown, the counter has been set to "0" before the wait. -/
theorem C9_idle_wait_failure (st : RunState) (item : urlToCheck) (t : Int) (p : Probe)
    (hel : p.elementR = TryErr.nil)
    (hfail : (Contains item.url "microsoft.co" = true ∧ p.microsoftIdle ≠ TryErr.nil) ∨
      (Contains item.url "xbox.com" = true ∧ p.xboxIdle ≠ TryErr.nil)) :
    ∃ st', processItem st item t p = Step.next st' ∧ st'.tweets = st.tweets ∧
      (∀ k, k ≠ microsoftCount → st'.alertAlreadySent.get k = st.alertAlreadySent.get k) ∧
      (Contains item.url "microsoft.co" = false →
        st'.alertAlreadySent = st.alertAlreadySent) ∧
      (Contains item.url "microsoft.co" = true →
        (st.alertAlreadySent.get item.url = none ∨
          ¬ wrap64 (t - ParseInt (st.alertAlreadySent.getD item.url) 64) < cooldown) →
        st'.alertAlreadySent.get microsoftCount = some "0") := by
  by_cases hskip : ((st.alertAlreadySent.get item.url).isSome = true ∧
      wrap64 (t - ParseInt (st.alertAlreadySent.getD item.url) 64) < cooldown)
  · refine ⟨{ st with atLeastOneInStock := true }, ?_, rfl, fun _ _ => rfl, fun _ => rfl, ?_⟩
    · simp [processItem, hel, hskip]
    · intro _ h
      rcases h with h | h
      · rw [h] at hskip; simp at hskip
      · exact absurd hskip.2 h
  · by_cases hms : Contains item.url "microsoft.co" = true
    · refine ⟨{ st with alertAlreadySent := st.alertAlreadySent.set microsoftCount "0" }, ?_,
        rfl, fun k hk => get_set_ne _ _ _ _ hk, fun h => ?_, fun _ _ => get_set_self _ _ _⟩
      · by_cases hm : p.microsoftIdle = TryErr.nil
        · have hx : Contains item.url "xbox.com" = true ∧ ¬ p.xboxIdle = TryErr.nil := by
            rcases hfail with h | h
            · exact absurd hm h.2
            · exact h
          simp [processItem, hel, hskip, hms, hm, hx]
        · simp [processItem, hel, hskip, hms, hm]
      · rw [hms] at h; cases h
    · have hx : Contains item.url "xbox.com" = true ∧ ¬ p.xboxIdle = TryErr.nil := by
        rcases hfail with h | h
        · exact absurd h.1 hms
        · exact h
      refine ⟨st, ?_, rfl, fun _ _ => rfl, fun _ => rfl, fun h => absurd h hms⟩
      simp [processItem, hel, hskip, hms, hx]

theorem C9_idle_wait_failure_witness :
    ∃ st', processItem ⟨[("microsoftCount", "2")], false, []⟩ microsoftItem clock0
        probeUnstable = Step.next st' ∧ st'.tweets = [] ∧
      (∀ k, k ≠ microsoftCount →
        st'.alertAlreadySent.get k = Store.get [("microsoftCount", "2")] k) ∧
      (Contains microsoftItem.url "microsoft.co" = false →
        st'.alertAlreadySent = [("microsoftCount", "2")]) ∧
      (Contains microsoftItem.url "microsoft.co" = true →
        (Store.get [("microsoftCount", "2")] microsoftItem.url = none ∨
          ¬ wrap64 (clock0 - ParseInt (Store.getD [("microsoftCount", "2")] microsoftItem.url)
            64) < cooldown) →
        st'.alertAlreadySent.get microsoftCount = some "0") :=
  C9_idle_wait_failure ⟨[("microsoftCount", "2")], false, []⟩ microsoftItem clock0
    probeUnstable (by decide) (Or.inl (by decide))

/-- C9 fails as stated: after two counted hits the counter is "2"; the next iteration for
the Microsoft target passes the presence check, the network-idle wait fails, and the map
after the iteration holds the counter "0": it is not the map before. -/
theorem C9_counterexample :
    processItem ⟨[("microsoftCount", "2")], false, []⟩ microsoftItem clock0 probeUnstable =
      Step.next ⟨[("microsoftCount", "0")], false, []⟩ ∧
    Store.get [("microsoftCount", "0")] microsoftCount ≠
      Store.get [("microsoftCount", "2")] microsoftCount := by
  decide

/-! ## C10 -/

theorem FormatInt_zero : FormatInt 0 = "0" := by decide

/-- C10 (as the code has it): for a target whose URL contains "microsoft" but not
"microsoft.co", for every state and all external results, the iteration ends in `continue`
without a tweet, and the entry of the target keeps its value or becomes the empty string
(or, for the one URL that is the counter key itself, the counter value "0"): the hit count
is 0 and `count <= 3` holds. When such an iteration passes the presence check, the cooldown
test and the network wait, times out on the out-of-stock phrase and passes the secondary
check (or has none), it writes "0" to the counter `microsoftCount`. -/
theorem C10_microsoft_pattern_mismatch (st : RunState) (item : urlToCheck) (t : Int)
    (p : Probe)
    (h1 : Contains item.url "microsoft" = true)
    (h2 : Contains item.url "microsoft.co" = false) :
    (∃ st', processItem st item t p = Step.next st' ∧ st'.tweets = st.tweets ∧
      (st'.alertAlreadySent.get item.url = st.alertAlreadySent.get item.url ∨
        st'.alertAlreadySent.get item.url = some "" ∨
        (item.url = microsoftCount ∧ st'.alertAlreadySent.get item.url = some "0"))) ∧
    (p.elementR = TryErr.nil →
      (st.alertAlreadySent.get item.url = none ∨
        ¬ wrap64 (t - ParseInt (st.alertAlreadySent.getD item.url) 64) < cooldown) →
      (Contains item.url "xbox.com" = true → p.xboxIdle = TryErr.nil) →
      p.outOfStock = TryErr.deadlineExceeded →
      (item.inStockMessage = "" ∨ p.inStock = TryErr.nil) →
      ∃ st', processItem st item t p = Step.next st' ∧
        st'.alertAlreadySent.get microsoftCount = some "0") := by
  constructor
  · cases hp : p.elementR with
    | deadlineExceeded => exact ⟨st, by simp [processItem, hp], rfl, Or.inl rfl⟩
    | other => exact ⟨st, by simp [processItem, hp], rfl, Or.inl rfl⟩
    | nil =>
      by_cases hskip : ((st.alertAlreadySent.get item.url).isSome = true ∧
          wrap64 (t - ParseInt (st.alertAlreadySent.getD item.url) 64) < cooldown)
      · exact ⟨{ st with atLeastOneInStock := true }, by simp [processItem, hp, hskip], rfl,
          Or.inl rfl⟩
      · by_cases hx : Contains item.url "xbox.com" = true ∧ ¬ p.xboxIdle = TryErr.nil
        · exact ⟨st, by simp [processItem, hp, hskip, h2, hx], rfl, Or.inl rfl⟩
        · cases ho : p.outOfStock with
          | nil =>
            by_cases ha : (st.alertAlreadySent.get item.url).isSome = true
            · have hage : ¬ wrap64 (t - ParseInt (st.alertAlreadySent.getD item.url) 64) <
                  cooldown := fun h => hskip ⟨ha, h⟩
              exact ⟨{ st with alertAlreadySent := st.alertAlreadySent.set item.url "" },
                by simp [processItem, hp, hage, h2, hx, ho, ha], rfl,
                Or.inr (Or.inl (get_set_self _ _ _))⟩
            · exact ⟨st, by simp [processItem, hp, hskip, h2, hx, ho, ha], rfl, Or.inl rfl⟩
          | other => exact ⟨st, by simp [processItem, hp, hskip, h2, hx, ho], rfl, Or.inl rfl⟩
          | deadlineExceeded =>
            by_cases hs : item.inStockMessage ≠ "" ∧ p.inStock ≠ TryErr.nil
            · exact ⟨{ st with alertAlreadySent := st.alertAlreadySent.set item.url "" },
                by simp [processItem, hp, hskip, h2, hx, ho, hs], rfl,
                Or.inr (Or.inl (get_set_self _ _ _))⟩
            · refine ⟨{ st with alertAlreadySent := st.alertAlreadySent.set microsoftCount "0" },
                by simp [processItem, hp, hskip, h2, hx, ho, hs, h1, FormatInt_zero], rfl, ?_⟩
              by_cases hk : item.url = microsoftCount
              · exact Or.inr (Or.inr ⟨hk, by rw [hk]; exact get_set_self _ _ _⟩)
              · exact Or.inl (get_set_ne _ _ _ _ hk)
  · intro hp hns hxb ho hsec
    have hskip : ¬ ((st.alertAlreadySent.get item.url).isSome = true ∧
        wrap64 (t - ParseInt (st.alertAlreadySent.getD item.url) 64) < cooldown) := by
      rintro ⟨a, b⟩
      rcases hns with h | h
      · rw [h] at a; simp at a
      · exact h b
    have hx := idle_passed _ _ hxb
    have hs : ¬ (item.inStockMessage ≠ "" ∧ p.inStock ≠ TryErr.nil) := by
      rintro ⟨a, b⟩; rcases hsec with h | h <;> contradiction
    exact ⟨{ st with alertAlreadySent := st.alertAlreadySent.set microsoftCount "0" },
      by simp [processItem, hp, hskip, h2, hx, ho, hs, h1, FormatInt_zero],
      get_set_self _ _ _⟩

theorem C10_microsoft_pattern_mismatch_witness :
    (∃ st', processItem ⟨[("microsoftCount", "2")], false, []⟩ retailerItem clock0
        probeInStock = Step.next st' ∧ st'.tweets = [] ∧
      (st'.alertAlreadySent.get retailerItem.url =
          Store.get [("microsoftCount", "2")] retailerItem.url ∨
        st'.alertAlreadySent.get retailerItem.url = some "" ∨
        (retailerItem.url = microsoftCount ∧
          st'.alertAlreadySent.get retailerItem.url = some "0"))) ∧
    (probeInStock.elementR = TryErr.nil →
      (Store.get [("microsoftCount", "2")] retailerItem.url = none ∨
        ¬ wrap64 (clock0 - ParseInt (Store.getD [("microsoftCount", "2")] retailerItem.url)
          64) < cooldown) →
      (Contains retailerItem.url "xbox.com" = true → probeInStock.xboxIdle = TryErr.nil) →
      probeInStock.outOfStock = TryErr.deadlineExceeded →
      (retailerItem.inStockMessage = "" ∨ probeInStock.inStock = TryErr.nil) →
      ∃ st', processItem ⟨[("microsoftCount", "2")], false, []⟩ retailerItem clock0
          probeInStock = Step.next st' ∧
        st'.alertAlreadySent.get microsoftCount = some "0") :=
  C10_microsoft_pattern_mismatch ⟨[("microsoftCount", "2")], false, []⟩ retailerItem clock0
    probeInStock (by decide) (by decide)

/-- C10 fails as stated in its last part: a retailer page with "microsoft" in its path and
a secondary phrase, the counter at "2", the presence check passed and the out-of-stock
phrase not found (outcome PossiblyInStock), the secondary phrase not found either: the
iteration clears the entry of the target and leaves the counter at "2". -/
theorem C10_counterexample :
    Contains retailerItem.url "microsoft" = true ∧
    Contains retailerItem.url "microsoft.co" = false ∧
    probeSecondaryFails.elementR = TryErr.nil ∧
    probeSecondaryFails.outOfStock = TryErr.deadlineExceeded ∧
    processItem ⟨[("microsoftCount", "2")], false, []⟩ retailerItem clock0
        probeSecondaryFails =
      Step.next ⟨[(retailerItem.url, ""), ("microsoftCount", "2")], false, []⟩ ∧
    Store.get [(retailerItem.url, ""), ("microsoftCount", "2")] microsoftCount ≠ some "0" := by
  decide

/-! ## Lookups in the persisted map -/

theorem not_Contains_microsoft_co (u : String) (h : Contains u "microsoft" = false) :
    Contains u "microsoft.co" = false := by
  cases h' : Contains u "microsoft.co" with
  | false => rfl
  | true => rw [Contains_microsoft u h'] at h; cases h

theorem get_persist_none (k : String) (m : Store) (h : Store.get m k = none) :
    Store.get (persist m) k = none := by
  rw [get_eq_none_iff] at h ⊢
  intro e he
  exact h e ((mem_persist e m).1 he).1

/-! ## C4 -/

/-- An iteration for another target changes no entry but its own and sends at most a tweet
for itself. -/
theorem processItem_bystander (st : RunState) (item : urlToCheck) (t : Int) (p : Probe)
    (hq : Contains item.url "microsoft" = false)
    (hc : p.clientErr = false) (hu : p.updateErr = false) :
    ∃ st', processItem st item t p = Step.next st' ∧
      (∀ k, k ≠ item.url → st'.alertAlreadySent.get k = st.alertAlreadySent.get k) ∧
      (st'.tweets = st.tweets ∨ st'.tweets = st.tweets ++ [⟨item.url, item.product, t⟩]) := by
  have h2 := not_Contains_microsoft_co _ hq
  cases hp : p.elementR with
  | deadlineExceeded => exact ⟨st, by simp [processItem, hp], fun _ _ => rfl, Or.inl rfl⟩
  | other => exact ⟨st, by simp [processItem, hp], fun _ _ => rfl, Or.inl rfl⟩
  | nil =>
    by_cases hskip : ((st.alertAlreadySent.get item.url).isSome = true ∧
        wrap64 (t - ParseInt (st.alertAlreadySent.getD item.url) 64) < cooldown)
    · exact ⟨{ st with atLeastOneInStock := true }, by simp [processItem, hp, hskip],
        fun _ _ => rfl, Or.inl rfl⟩
    · by_cases hx : Contains item.url "xbox.com" = true ∧ ¬ p.xboxIdle = TryErr.nil
      · exact ⟨st, by simp [processItem, hp, hskip, h2, hx], fun _ _ => rfl, Or.inl rfl⟩
      · cases ho : p.outOfStock with
        | nil =>
          by_cases ha : (st.alertAlreadySent.get item.url).isSome = true
          · have hage : ¬ wrap64 (t - ParseInt (st.alertAlreadySent.getD item.url) 64) <
                cooldown := fun h => hskip ⟨ha, h⟩
            exact ⟨{ st with alertAlreadySent := st.alertAlreadySent.set item.url "" },
              by simp [processItem, hp, hage, h2, hx, ho, ha],
              fun k hk => get_set_ne _ _ _ _ hk, Or.inl rfl⟩
          · exact ⟨st, by simp [processItem, hp, hskip, h2, hx, ho, ha], fun _ _ => rfl,
              Or.inl rfl⟩
        | other =>
          exact ⟨st, by simp [processItem, hp, hskip, h2, hx, ho], fun _ _ => rfl, Or.inl rfl⟩
        | deadlineExceeded =>
          by_cases hs : item.inStockMessage ≠ "" ∧ p.inStock ≠ TryErr.nil
          · exact ⟨{ st with alertAlreadySent := st.alertAlreadySent.set item.url "" },
              by simp [processItem, hp, hskip, h2, hx, ho, hs],
              fun k hk => get_set_ne _ _ _ _ hk, Or.inl rfl⟩
          · by_cases ha : (st.alertAlreadySent.get item.url).isSome = true
            · have hage : ¬ wrap64 (t - ParseInt (st.alertAlreadySent.getD item.url) 64) <
                  cooldown := fun h => hskip ⟨ha, h⟩
              exact ⟨⟨st.alertAlreadySent.set item.url (FormatInt t), true, st.tweets⟩,
                by simp [processItem, hp, hage, h2, hx, ho, hs, hq, ha],
                fun k hk => get_set_ne _ _ _ _ hk, Or.inl rfl⟩
            · exact ⟨⟨st.alertAlreadySent.set item.url (FormatInt t), true,
                  st.tweets ++ [⟨item.url, item.product, t⟩]⟩,
                by simp [processItem, hp, hskip, h2, hx, ho, hs, hq, ha, hc, hu],
                fun k hk => get_set_ne _ _ _ _ hk, Or.inr rfl⟩

theorem tweetsFor_append (u : String) (l l' : List Tweet) :
    tweetsFor u (l ++ l') = tweetsFor u l ++ tweetsFor u l' := by
  simp [tweetsFor]

/-- A stretch of the loop over other targets leaves the entries under keys that contain
"microsoft" and the tweets for such URLs as they were, and runs to its end. -/
theorem runItems_bystanders (vs : List Visit) (hvs : ∀ v ∈ vs, bystander v) :
    ∀ st : RunState, ∃ st', runItems st vs = Step.next st' ∧
      (∀ k, Contains k "microsoft" = true →
        st'.alertAlreadySent.get k = st.alertAlreadySent.get k) ∧
      (∀ u, Contains u "microsoft" = true → tweetsFor u st'.tweets = tweetsFor u st.tweets) := by
  induction vs with
  | nil => intro st; exact ⟨st, rfl, fun _ _ => rfl, fun _ _ => rfl⟩
  | cons v vs ih =>
    intro st
    obtain ⟨item, t, p⟩ := v
    obtain ⟨hq, hc, hu⟩ := hvs (item, t, p) (List.mem_cons_self _ _)
    obtain ⟨s1, e1, g1, w1⟩ := processItem_bystander st item t p hq hc hu
    obtain ⟨s2, e2, g2, w2⟩ := ih (fun v hv => hvs v (List.mem_cons_of_mem _ hv)) s1
    refine ⟨s2, by simp [runItems, e1, e2], ?_, ?_⟩
    · intro k hk
      have hne : k ≠ item.url := by
        intro h; rw [h] at hk; simp only at hq; rw [hq] at hk; cases hk
      rw [g2 k hk, g1 k hne]
    · intro u hu'
      have hne : ¬ item.url = u := by
        intro h; rw [← h] at hu'; simp only at hq; rw [hq] at hu'; cases hu'
      rw [w2 u hu']
      rcases w1 with w | w
      · rw [w]
      · rw [w, tweetsFor_append]
        simp [tweetsFor, hne]

/-- The iteration for a Microsoft target without entry that reaches the hit counting: with
the incremented count `c` at most 3 it stores `c` and continues; above 3, with Twitter
working, it stores "0", sends the tweet and sets the entry. -/
theorem processItem_hit (st : RunState) (item : urlToCheck) (t : Int) (p : Probe)
    (hurl : Contains item.url "microsoft.co" = true)
    (hno : st.alertAlreadySent.get item.url = none)
    (hh : confirmedHit item p) (c : Int)
    (hc : ParseInt (st.alertAlreadySent.getD microsoftCount) 32 + 1 = c) :
    (c ≤ 3 → ∃ st', processItem st item t p = Step.next st' ∧ st'.tweets = st.tweets ∧
      st'.alertAlreadySent.get item.url = none ∧
      st'.alertAlreadySent.get microsoftCount = some (FormatInt c)) ∧
    (3 < c → p.clientErr = false → p.updateErr = false →
      ∃ st', processItem st item t p = Step.next st' ∧
        st'.tweets = st.tweets ++ [⟨item.url, item.product, t⟩] ∧
        st'.alertAlreadySent.get item.url = some (FormatInt t) ∧
        st'.alertAlreadySent.get microsoftCount = some "0") := by
  obtain ⟨hel, hms, hxb, ho, hsec⟩ := hh
  have hhit := Contains_microsoft _ hurl
  have hne := ne_microsoftCount _ hurl
  have hne' : microsoftCount ≠ item.url := fun h => hne h.symm
  have c1 := hms hurl
  have c2 := idle_passed _ _ hxb
  have hs : ¬ (item.inStockMessage ≠ "" ∧ p.inStock ≠ TryErr.nil) := by
    rintro ⟨a, b⟩; rcases hsec with h | h <;> contradiction
  constructor
  · intro hle
    refine ⟨{ st with alertAlreadySent :=
        (st.alertAlreadySent.set microsoftCount "0").set microsoftCount (FormatInt c) }, ?_,
      rfl, ?_, get_set_self _ _ _⟩
    · simp [processItem, hno, hel, hurl, c1, c2, ho, hs, hhit, hc, hle]
    · show Store.get (Store.set (Store.set _ _ _) _ _) _ = none
      rw [get_set_ne _ _ _ _ hne, get_set_ne _ _ _ _ hne, hno]
  · intro hgt hcl hup
    have hle : ¬ c ≤ 3 := by omega
    refine ⟨⟨(((st.alertAlreadySent.set microsoftCount "0").set microsoftCount
        (FormatInt c)).set microsoftCount "0").set item.url (FormatInt t), true,
        st.tweets ++ [⟨item.url, item.product, t⟩]⟩, ?_, rfl, get_set_self _ _ _, ?_⟩
    · simp [processItem, hno, hel, hurl, c1, c2, ho, hs, hhit, hc, hle, hcl, hup]
    · show Store.get (Store.set (Store.set _ _ _) _ _) _ = some "0"
      rw [get_set_ne _ _ _ _ hne', get_set_self]

theorem Contains_microsoftCount : Contains microsoftCount "microsoft" = true := by decide

/-- One run of `main` over a list in which the Microsoft target `item` stands among other
targets, from a loaded map without entry for `item`. -/
theorem runMain_hit (file : Store) (pre post : List Visit) (item : urlToCheck) (t : Int)
    (p : Probe)
    (hpre : ∀ v ∈ pre, bystander v) (hpost : ∀ v ∈ post, bystander v)
    (hurl : Contains item.url "microsoft.co" = true)
    (hno : file.get item.url = none)
    (hh : confirmedHit item p) (c : Int)
    (hc : ParseInt (file.getD microsoftCount) 32 + 1 = c) :
    (c ≤ 3 → ∃ f log, runMain file (pre ++ (item, t, p) :: post) = (some f, log) ∧
      tweetsFor item.url log = [] ∧ f.get item.url = none ∧
      f.get microsoftCount = some (FormatInt c)) ∧
    (3 < c → p.clientErr = false → p.updateErr = false →
      ∃ f log, runMain file (pre ++ (item, t, p) :: post) = (some f, log) ∧
        tweetsFor item.url log = [⟨item.url, item.product, t⟩] ∧
        f.get microsoftCount = some "0") := by
  have hhit := Contains_microsoft _ hurl
  obtain ⟨sa, ea, ga, wa⟩ := runItems_bystanders pre hpre ⟨file, false, []⟩
  have hno' : sa.alertAlreadySent.get item.url = none := by rw [ga _ hhit]; exact hno
  have hc' : ParseInt (sa.alertAlreadySent.getD microsoftCount) 32 + 1 = c := by
    rw [← hc]; simp only [Store.getD]; rw [ga _ Contains_microsoftCount]
  have hwa : tweetsFor item.url sa.tweets = [] := by rw [wa _ hhit]; rfl
  obtain ⟨low, high⟩ := processItem_hit sa item t p hurl hno' hh c hc'
  constructor
  · intro hle
    obtain ⟨sb, eb, wb, gb1, gb2⟩ := low hle
    obtain ⟨sc, ec, gc, wc⟩ := runItems_bystanders post hpost sb
    have run : runItems ⟨file, false, []⟩ (pre ++ (item, t, p) :: post) = Step.next sc := by
      rw [runItems_append pre _ _ _ ea]; simp [runItems, eb, ec]
    refine ⟨persist sc.alertAlreadySent, sc.tweets, by simp [runMain, run], ?_, ?_, ?_⟩
    · rw [wc _ hhit, wb, hwa]
    · apply get_persist_none; rw [gc _ hhit]; exact gb1
    · apply get_persist_some _ _ (FormatInt_ne_empty c)
      rw [gc _ Contains_microsoftCount]; exact gb2
  · intro hgt hcl hup
    obtain ⟨sb, eb, wb, _, gb2⟩ := high hgt hcl hup
    obtain ⟨sc, ec, gc, wc⟩ := runItems_bystanders post hpost sb
    have run : runItems ⟨file, false, []⟩ (pre ++ (item, t, p) :: post) = Step.next sc := by
      rw [runItems_append pre _ _ _ ea]; simp [runItems, eb, ec]
    refine ⟨persist sc.alertAlreadySent, sc.tweets, by simp [runMain, run], ?_, ?_⟩
    · rw [wc _ hhit, wb, tweetsFor_append, hwa]
      simp [tweetsFor]
    · apply get_persist_some _ _ (by decide)
      rw [gc _ Contains_microsoftCount]; exact gb2

/-- C4 (as the code has it): a Microsoft target (URL contains "microsoft.co"), alone of
its kind among other targets whose URLs do not contain "microsoft", without entry and with
the counter at 0. In consecutive runs in which the target reaches the hit counting (outcome
PossiblyInStock, secondary check passed or not configured) the 1st, 2nd and 3rd run send no
tweet for it and persist the counter 1, 2, 3; the 4th run sends exactly one tweet for it
and persists the counter 0. -/
theorem C4_debounce_fires_on_fourth (file : Store) (item : urlToCheck)
    (t1 t2 t3 t4 : Int) (p1 p2 p3 p4 : Probe)
    (pre1 post1 pre2 post2 pre3 post3 pre4 post4 : List Visit)
    (hurl : Contains item.url "microsoft.co" = true)
    (hno : file.get item.url = none)
    (hcount : ParseInt (file.getD microsoftCount) 32 = 0)
    (h1 : confirmedHit item p1) (h2 : confirmedHit item p2) (h3 : confirmedHit item p3)
    (h4 : confirmedHit item p4) (hcl : p4.clientErr = false) (hup : p4.updateErr = false)
    (hothers : ∀ v ∈ pre1 ++ post1 ++ pre2 ++ post2 ++ pre3 ++ post3 ++ pre4 ++ post4,
      bystander v) :
    ∃ (f1 f2 f3 f4 : Store) (log1 log2 log3 log4 : List Tweet),
      runMain file (pre1 ++ (item, t1, p1) :: post1) = (some f1, log1) ∧
      tweetsFor item.url log1 = [] ∧ f1.get microsoftCount = some "1" ∧
      runMain f1 (pre2 ++ (item, t2, p2) :: post2) = (some f2, log2) ∧
      tweetsFor item.url log2 = [] ∧ f2.get microsoftCount = some "2" ∧
      runMain f2 (pre3 ++ (item, t3, p3) :: post3) = (some f3, log3) ∧
      tweetsFor item.url log3 = [] ∧ f3.get microsoftCount = some "3" ∧
      runMain f3 (pre4 ++ (item, t4, p4) :: post4) = (some f4, log4) ∧
      tweetsFor item.url log4 = [⟨item.url, item.product, t4⟩] ∧
      f4.get microsoftCount = some "0" := by
  have hb : ∀ l : List Visit, (∀ v ∈ l, v ∈ pre1 ++ post1 ++ pre2 ++ post2 ++ pre3 ++ post3 ++
      pre4 ++ post4) → ∀ v ∈ l, bystander v := fun l hl v hv => hothers v (hl v hv)
  have b1 := hb pre1 (by intro v hv; simp [hv])
  have b1' := hb post1 (by intro v hv; simp [hv])
  have b2 := hb pre2 (by intro v hv; simp [hv])
  have b2' := hb post2 (by intro v hv; simp [hv])
  have b3 := hb pre3 (by intro v hv; simp [hv])
  have b3' := hb post3 (by intro v hv; simp [hv])
  have b4 := hb pre4 (by intro v hv; simp [hv])
  have b4' := hb post4 (by intro v hv; simp [hv])
  have next : ∀ (f : Store) (s : String), f.get microsoftCount = some s →
      f.getD microsoftCount = s := fun f s h => by simp [Store.getD, h]
  obtain ⟨f1, log1, r1, w1, n1, g1⟩ :=
    (runMain_hit file pre1 post1 item t1 p1 b1 b1' hurl hno h1 1 (by rw [hcount]; rfl)).1
      (by decide)
  obtain ⟨f2, log2, r2, w2, n2, g2⟩ :=
    (runMain_hit f1 pre2 post2 item t2 p2 b2 b2' hurl n1 h2 2
      (by rw [next _ _ g1]; decide)).1 (by decide)
  obtain ⟨f3, log3, r3, w3, n3, g3⟩ :=
    (runMain_hit f2 pre3 post3 item t3 p3 b3 b3' hurl n2 h3 3
      (by rw [next _ _ g2]; decide)).1 (by decide)
  obtain ⟨f4, log4, r4, w4, g4⟩ :=
    (runMain_hit f3 pre4 post4 item t4 p4 b4 b4' hurl n3 h4 4
      (by rw [next _ _ g3]; decide)).2 (by decide) hcl hup
  exact ⟨f1, f2, f3, f4, log1, log2, log3, log4, r1, w1, g1, r2, w2, g2, r3, w3, g3, r4, w4, g4⟩

theorem C4_debounce_fires_on_fourth_witness :
    ∃ (f1 f2 f3 f4 : Store) (log1 log2 log3 log4 : List Tweet),
      runMain [("microsoftCount", "0")]
        ([(shopItem, clock0, probeOutOfStock)] ++ (microsoftItem, clock0 + 1, probeInStock) ::
          []) = (some f1, log1) ∧
      tweetsFor microsoftItem.url log1 = [] ∧ f1.get microsoftCount = some "1" ∧
      runMain f1 ([] ++ (microsoftItem, clock0 + 2, probeInStock) ::
          [(otherItem, clock0 + 3, probeInStock)]) = (some f2, log2) ∧
      tweetsFor microsoftItem.url log2 = [] ∧ f2.get microsoftCount = some "2" ∧
      runMain f2 ([] ++ (microsoftItem, clock0 + 4, probeInStock) :: []) = (some f3, log3) ∧
      tweetsFor microsoftItem.url log3 = [] ∧ f3.get microsoftCount = some "3" ∧
      runMain f3 ([] ++ (microsoftItem, clock0 + 5, probeInStock) :: []) = (some f4, log4) ∧
      tweetsFor microsoftItem.url log4 =
        [⟨microsoftItem.url, microsoftItem.product, clock0 + 5⟩] ∧
      f4.get microsoftCount = some "0" :=
  C4_debounce_fires_on_fourth [("microsoftCount", "0")] microsoftItem
    (clock0 + 1) (clock0 + 2) (clock0 + 4) (clock0 + 5)
    probeInStock probeInStock probeInStock probeInStock
    [(shopItem, clock0, probeOutOfStock)] [] [] [(otherItem, clock0 + 3, probeInStock)]
    [] [] [] []
    (by decide) (by decide) (by decide) (by decide) (by decide) (by decide) (by decide)
    (by decide) (by decide) (by decide)

/-- C4 fails as stated: for the Microsoft target with the counter at "0" and three
consecutive runs with outcome PossiblyInStock, the third run sends no tweet; it persists
the counter "3". -/
theorem C4_counterexample :
    runMain [("microsoftCount", "0")] [(microsoftItem, clock0, probeInStock)] =
      (some [("microsoftCount", "1")], []) ∧
    runMain [("microsoftCount", "1")] [(microsoftItem, clock0 + 1, probeInStock)] =
      (some [("microsoftCount", "2")], []) ∧
    runMain [("microsoftCount", "2")] [(microsoftItem, clock0 + 2, probeInStock)] =
      (some [("microsoftCount", "3")], []) := by
  decide

/-! ## The invariant behind the spacing of the tweets -/

/-- The ways an iteration can end, with the map it leaves. `m1` is the map after the
counter reset of the `microsoft.co` branch, `cnt` the hit count, `m4` the map after the hit
counting. -/
theorem processItem_cases (st : RunState) (item : urlToCheck) (t : Int) (p : Probe) :
    ∃ (m1 m4 : Store) (cnt : Int),
      (m1 = st.alertAlreadySent ∨ m1 = st.alertAlreadySent.set microsoftCount "0") ∧
      (cnt = 0 ∨ cnt = ParseInt (st.alertAlreadySent.getD microsoftCount) 32 + 1) ∧
      (m4 = m1 ∨ (Contains item.url "microsoft.co" = true ∧
        m4 = ((m1.set microsoftCount (FormatInt cnt)).set microsoftCount "0"))) ∧
      (processItem st item t p = Step.next st ∨
       processItem st item t p = Step.next { st with atLeastOneInStock := true } ∨
       ((st.alertAlreadySent.get item.url = none ∨
          ¬ wrap64 (t - ParseInt (st.alertAlreadySent.getD item.url) 64) < cooldown) ∧
        (processItem st item t p = Step.next { st with alertAlreadySent := m1 } ∨
         processItem st item t p = Step.next { st with alertAlreadySent := m1.set item.url "" } ∨
         processItem st item t p =
            Step.next { st with alertAlreadySent := m1.set microsoftCount (FormatInt cnt) } ∨
         processItem st item t p =
            Step.next ⟨m4.set item.url (FormatInt t), true, st.tweets⟩ ∨
         ((p.clientErr = true ∨ p.updateErr = true) ∧
          processItem st item t p = Step.fatal ⟨m4, true, st.tweets⟩) ∨
         (st.alertAlreadySent.get item.url = none ∧ item.url ≠ microsoftCount ∧
          processItem st item t p = Step.next ⟨m4.set item.url (FormatInt t), true,
            st.tweets ++ [⟨item.url, item.product, t⟩]⟩)))) := by
  by_cases hms : Contains item.url "microsoft.co" = true
  · -- the target is a Microsoft page: the counter is reset, then counted
    have hhit := Contains_microsoft _ hms
    refine ⟨st.alertAlreadySent.set microsoftCount "0",
      ((st.alertAlreadySent.set microsoftCount "0").set microsoftCount
        (FormatInt (ParseInt (st.alertAlreadySent.getD microsoftCount) 32 + 1))).set
        microsoftCount "0", ParseInt (st.alertAlreadySent.getD microsoftCount) 32 + 1,
      Or.inr rfl, Or.inr rfl, Or.inr ⟨hms, rfl⟩, ?_⟩
    cases hp : p.elementR with
    | deadlineExceeded => exact Or.inl (by simp [processItem, hp])
    | other => exact Or.inl (by simp [processItem, hp])
    | nil =>
      by_cases hskip : ((st.alertAlreadySent.get item.url).isSome = true ∧
          wrap64 (t - ParseInt (st.alertAlreadySent.getD item.url) 64) < cooldown)
      · exact Or.inr (Or.inl (by simp [processItem, hp, hskip]))
      · have hns : st.alertAlreadySent.get item.url = none ∨
            ¬ wrap64 (t - ParseInt (st.alertAlreadySent.getD item.url) 64) < cooldown := by
          cases hg : st.alertAlreadySent.get item.url with
          | none => exact Or.inl rfl
          | some v => exact Or.inr (fun h => hskip ⟨by simp [hg], h⟩)
        refine Or.inr (Or.inr ⟨hns, ?_⟩)
        by_cases hm : p.microsoftIdle = TryErr.nil
        swap
        · exact Or.inl (by simp [processItem, hp, hskip, hms, hm])
        by_cases hx : Contains item.url "xbox.com" = true ∧ ¬ p.xboxIdle = TryErr.nil
        · exact Or.inl (by simp [processItem, hp, hskip, hms, hm, hx])
        cases ho : p.outOfStock with
        | nil =>
          by_cases ha : (st.alertAlreadySent.get item.url).isSome = true
          · have hage : ¬ wrap64 (t - ParseInt (st.alertAlreadySent.getD item.url) 64) <
                cooldown := fun h => hskip ⟨ha, h⟩
            exact Or.inr (Or.inl (by simp [processItem, hp, hage, hms, hm, hx, ho, ha]))
          · exact Or.inl (by simp [processItem, hp, hskip, hms, hm, hx, ho, ha])
        | other => exact Or.inl (by simp [processItem, hp, hskip, hms, hm, hx, ho])
        | deadlineExceeded =>
          by_cases hs : item.inStockMessage ≠ "" ∧ p.inStock ≠ TryErr.nil
          · exact Or.inr (Or.inl (by simp [processItem, hp, hskip, hms, hm, hx, ho, hs]))
          by_cases hc : ParseInt (st.alertAlreadySent.getD microsoftCount) 32 + 1 ≤ 3
          · exact Or.inr (Or.inr (Or.inl (by
              simp [processItem, hp, hskip, hms, hm, hx, ho, hs, hhit, hc])))
          by_cases ha : (st.alertAlreadySent.get item.url).isSome = true
          · have hage : ¬ wrap64 (t - ParseInt (st.alertAlreadySent.getD item.url) 64) <
                cooldown := fun h => hskip ⟨ha, h⟩
            exact Or.inr (Or.inr (Or.inr (Or.inl (by
              simp [processItem, hp, hage, hms, hm, hx, ho, hs, hhit, hc, ha]))))
          have hnone : st.alertAlreadySent.get item.url = none := by
            cases hg : st.alertAlreadySent.get item.url with
            | none => rfl
            | some v => simp [hg] at ha
          cases hcl : p.clientErr with
          | true =>
            exact Or.inr (Or.inr (Or.inr (Or.inr (Or.inl ⟨Or.inl rfl, by
              simp [processItem, hp, hnone, hms, hm, hx, ho, hs, hhit, hc, hcl]⟩))))
          | false =>
            cases hup : p.updateErr with
            | true =>
              exact Or.inr (Or.inr (Or.inr (Or.inr (Or.inl ⟨Or.inr rfl, by
                simp [processItem, hp, hnone, hms, hm, hx, ho, hs, hhit, hc, hcl, hup]⟩))))
            | false =>
              exact Or.inr (Or.inr (Or.inr (Or.inr (Or.inr ⟨hnone, ne_microsoftCount _ hms, by
                simp [processItem, hp, hnone, hms, hm, hx, ho, hs, hhit, hc, hcl, hup]⟩))))
  · -- any other target: the counter is read as 0
    refine ⟨st.alertAlreadySent, st.alertAlreadySent, 0, Or.inl rfl, Or.inl rfl, Or.inl rfl,
      ?_⟩
    cases hp : p.elementR with
    | deadlineExceeded => exact Or.inl (by simp [processItem, hp])
    | other => exact Or.inl (by simp [processItem, hp])
    | nil =>
      by_cases hskip : ((st.alertAlreadySent.get item.url).isSome = true ∧
          wrap64 (t - ParseInt (st.alertAlreadySent.getD item.url) 64) < cooldown)
      · exact Or.inr (Or.inl (by simp [processItem, hp, hskip]))
      · have hns : st.alertAlreadySent.get item.url = none ∨
            ¬ wrap64 (t - ParseInt (st.alertAlreadySent.getD item.url) 64) < cooldown := by
          cases hg : st.alertAlreadySent.get item.url with
          | none => exact Or.inl rfl
          | some v => exact Or.inr (fun h => hskip ⟨by simp [hg], h⟩)
        refine Or.inr (Or.inr ⟨hns, ?_⟩)
        by_cases hx : Contains item.url "xbox.com" = true ∧ ¬ p.xboxIdle = TryErr.nil
        · exact Or.inl (by simp [processItem, hp, hskip, hms, hx])
        cases ho : p.outOfStock with
        | nil =>
          by_cases ha : (st.alertAlreadySent.get item.url).isSome = true
          · have hage : ¬ wrap64 (t - ParseInt (st.alertAlreadySent.getD item.url) 64) <
                cooldown := fun h => hskip ⟨ha, h⟩
            exact Or.inr (Or.inl (by simp [processItem, hp, hage, hms, hx, ho, ha]))
          · exact Or.inl (by simp [processItem, hp, hskip, hms, hx, ho, ha])
        | other => exact Or.inl (by simp [processItem, hp, hskip, hms, hx, ho])
        | deadlineExceeded =>
          by_cases hs : item.inStockMessage ≠ "" ∧ p.inStock ≠ TryErr.nil
          · exact Or.inr (Or.inl (by simp [processItem, hp, hskip, hms, hx, ho, hs]))
          by_cases hhit : Contains item.url "microsoft" = true
          · exact Or.inr (Or.inr (Or.inl (by
              simp [processItem, hp, hskip, hms, hx, ho, hs, hhit])))
          by_cases ha : (st.alertAlreadySent.get item.url).isSome = true
          · have hage : ¬ wrap64 (t - ParseInt (st.alertAlreadySent.getD item.url) 64) <
                cooldown := fun h => hskip ⟨ha, h⟩
            exact Or.inr (Or.inr (Or.inr (Or.inl (by
              simp [processItem, hp, hage, hms, hx, ho, hs, hhit, ha]))))
          have hnone : st.alertAlreadySent.get item.url = none := by
            cases hg : st.alertAlreadySent.get item.url with
            | none => rfl
            | some v => simp [hg] at ha
          cases hcl : p.clientErr with
          | true =>
            exact Or.inr (Or.inr (Or.inr (Or.inr (Or.inl ⟨Or.inl rfl, by
              simp [processItem, hp, hnone, hms, hx, ho, hs, hhit, hcl]⟩))))
          | false =>
            cases hup : p.updateErr with
            | true =>
              exact Or.inr (Or.inr (Or.inr (Or.inr (Or.inl ⟨Or.inr rfl, by
                simp [processItem, hp, hnone, hms, hx, ho, hs, hhit, hcl, hup]⟩))))
            | false =>
              have hne : item.url ≠ microsoftCount := by
                intro e
                rw [e] at hhit
                exact hhit Contains_microsoftCount
              exact Or.inr (Or.inr (Or.inr (Or.inr (Or.inr ⟨hnone, hne, by
                simp [processItem, hp, hnone, hms, hx, ho, hs, hhit, hcl, hup]⟩))))

/-- An iteration writes no key other than the URL of its target and the counter key. -/
theorem processItem_frame (st : RunState) (item : urlToCheck) (t : Int) (p : Probe)
    (k : String) (hk : k ≠ microsoftCount) (hk' : k ≠ item.url) :
    (processItem st item t p).state.alertAlreadySent.get k = st.alertAlreadySent.get k := by
  obtain ⟨m1, m4, cnt, h1, _, h4, h⟩ := processItem_cases st item t p
  have g1 : m1.get k = st.alertAlreadySent.get k := by
    rcases h1 with h1 | h1 <;> rw [h1]
    exact get_set_ne _ _ _ _ hk
  have g4 : m4.get k = st.alertAlreadySent.get k := by
    rcases h4 with h4 | ⟨_, h4⟩ <;> rw [h4]
    · exact g1
    · rw [get_set_ne _ _ _ _ hk, get_set_ne _ _ _ _ hk, g1]
  rcases h with h | h | ⟨_, h | h | h | h | ⟨_, h⟩ | ⟨_, _, h⟩⟩ <;> rw [h] <;>
    simp [Step.state, get_set_ne _ _ _ _ hk, get_set_ne _ _ _ _ hk', g1, g4]

/-- The entry of the target itself is written only by an iteration that has passed the
cooldown test. -/
theorem processItem_own (st : RunState) (item : urlToCheck) (t : Int) (p : Probe) :
    (processItem st item t p).state.alertAlreadySent = st.alertAlreadySent ∨
      st.alertAlreadySent.get item.url = none ∨
      ¬ wrap64 (t - ParseInt (st.alertAlreadySent.getD item.url) 64) < cooldown := by
  obtain ⟨m1, m4, cnt, _, _, _, h⟩ := processItem_cases st item t p
  rcases h with h | h | ⟨hns, _⟩
  · left; rw [h]; rfl
  · left; rw [h]; rfl
  · exact Or.inr hns

/-- An iteration sends at most one tweet, and only for a target without entry; the entry
then holds the clock value. -/
theorem processItem_tweets (st : RunState) (item : urlToCheck) (t : Int) (p : Probe) :
    (processItem st item t p).state.tweets = st.tweets ∨
      ((processItem st item t p).state.tweets = st.tweets ++ [⟨item.url, item.product, t⟩] ∧
        st.alertAlreadySent.get item.url = none ∧ item.url ≠ microsoftCount ∧
        (processItem st item t p).state.alertAlreadySent.get item.url =
          some (FormatInt t)) := by
  obtain ⟨m1, m4, cnt, _, _, _, h⟩ := processItem_cases st item t p
  rcases h with h | h | ⟨_, h | h | h | h | ⟨_, h⟩ | ⟨hn, hne, h⟩⟩
  · left; rw [h]; rfl
  · left; rw [h]; rfl
  · left; rw [h]; rfl
  · left; rw [h]; rfl
  · left; rw [h]; rfl
  · left; rw [h]; rfl
  · left; rw [h]; rfl
  · right; rw [h]; exact ⟨rfl, hn, hne, get_set_self _ _ _⟩

theorem Spaced_mono (T T' : Int) (s : RunState) (h : Spaced T s) (hT : T ≤ T') :
    Spaced T' s := by
  refine ⟨h.1, fun tw htw => ?_⟩
  obtain ⟨h1, h2⟩ := h.2 tw htw
  refine ⟨h1, ?_⟩
  rcases h2 with h2 | ⟨a, b, c, d⟩
  · exact Or.inl (by omega)
  · exact Or.inr ⟨a, by omega, c, d⟩

/-- One iteration at a clock value `t` not before `T` keeps the invariant, now for `t`. -/
theorem Spaced_step (T t : Int) (st : RunState) (item : urlToCheck) (p : Probe)
    (h : Spaced T st) (hT : T ≤ t) (lo : -2 ^ 63 ≤ t) (hi : t < 2 ^ 63) :
    Spaced t (processItem st item t p).state := by
  have hc : (0 : Int) ≤ cooldown := by decide
  have hc' : cooldown < 2 ^ 63 := by decide
  -- what an earlier tweet needs after the iteration
  have old : ∀ tw ∈ st.tweets, tw.url ≠ microsoftCount ∧
      (tw.todayNow + cooldown ≤ t ∨
        ((processItem st item t p).state.alertAlreadySent.get tw.url =
            some (FormatInt tw.todayNow) ∧ tw.todayNow ≤ t ∧
          -2 ^ 63 ≤ tw.todayNow ∧ tw.todayNow < 2 ^ 63)) := by
    intro tw htw
    obtain ⟨h1, h2⟩ := h.2 tw htw
    refine ⟨h1, ?_⟩
    rcases h2 with h2 | ⟨a, b, c, d⟩
    · exact Or.inl (by omega)
    · by_cases hu : tw.url = item.url
      · rcases processItem_own st item t p with e | e | e
        · exact Or.inr ⟨by rw [e]; exact a, by omega, c, d⟩
        · rw [← hu, a] at e; cases e
        · left
          have hD : st.alertAlreadySent.getD item.url = FormatInt tw.todayNow := by
            rw [← hu]; simp [Store.getD, a]
          rw [hD, ParseInt_FormatInt _ c d] at e
          by_contra hlt
          exact e (by rw [wrap64_of_range _ (by omega) (by omega)]; omega)
      · exact Or.inr ⟨by rw [processItem_frame st item t p _ h1 hu]; exact a, by omega, c, d⟩
  rcases processItem_tweets st item t p with e | ⟨e, hn, hne, hg⟩
  · exact ⟨by rw [e]; exact h.1, by rw [e]; exact old⟩
  · refine ⟨?_, ?_⟩
    · rw [e, List.pairwise_append]
      refine ⟨h.1, List.pairwise_singleton _ _, ?_⟩
      intro a ha b hb hab
      simp only [List.mem_singleton] at hb
      subst hb
      simp only at hab ⊢
      obtain ⟨_, h2⟩ := h.2 a ha
      rcases h2 with h2 | ⟨h2, _⟩
      · omega
      · rw [hab, hn] at h2; cases h2
    · rw [e]
      intro tw htw
      rw [List.mem_append, List.mem_singleton] at htw
      rcases htw with htw | htw
      · exact old tw htw
      · subst htw
        exact ⟨hne, Or.inr ⟨hg, le_refl _, lo, hi⟩⟩

/-- The loop over a list of visits with clock values in `int64`, non-decreasing and not
before `T`, keeps the invariant, for every bound `T'` above the clock values visited. -/
theorem Spaced_runItems : ∀ (vs : List Visit) (T : Int) (st : RunState), Spaced T st →
    (∀ v ∈ vs, T ≤ v.2.1 ∧ -2 ^ 63 ≤ v.2.1 ∧ v.2.1 < 2 ^ 63) →
    (vs.map (fun v => v.2.1)).Pairwise (fun a b => a ≤ b) →
    ∀ T', T ≤ T' → (∀ v ∈ vs, v.2.1 ≤ T') → Spaced T' (runItems st vs).state := by
  intro vs
  induction vs with
  | nil =>
    intro T st h _ _ T' hT' _
    exact Spaced_mono T T' st h hT'
  | cons v vs ih =>
    intro T st h hr hp T' hT' hb
    obtain ⟨item, t, p⟩ := v
    obtain ⟨h1, lo, hi⟩ := hr (item, t, p) (List.mem_cons_self _ _)
    simp only at h1 lo hi
    have hstep := Spaced_step T t st item p h h1 lo hi
    have htT' : t ≤ T' := hb (item, t, p) (List.mem_cons_self _ _)
    simp only [List.map_cons, List.pairwise_cons] at hp
    simp only [runItems]
    cases e : processItem st item t p with
    | fatal s1 =>
      rw [e] at hstep
      exact Spaced_mono t T' s1 hstep htT'
    | next s1 =>
      rw [e] at hstep
      refine ih t s1 hstep ?_ hp.2 T' htT' (fun v hv => hb v (List.mem_cons_of_mem _ hv))
      intro v hv
      obtain ⟨_, lo', hi'⟩ := hr v (List.mem_cons_of_mem _ hv)
      exact ⟨hp.1 v.2.1 (List.mem_map_of_mem _ hv), lo', hi'⟩

theorem exists_bound (T : Int) (l : List Int) :
    ∃ T', T ≤ T' ∧ (∀ x ∈ l, x ≤ T') ∧ ∀ y, T ≤ y → (∀ x ∈ l, x ≤ y) → T' ≤ y := by
  induction l with
  | nil => exact ⟨T, le_refl _, by simp, fun y hy _ => hy⟩
  | cons a l ih =>
    obtain ⟨T0, h1, h2, h3⟩ := ih
    refine ⟨max a T0, le_trans h1 (le_max_right _ _), ?_, ?_⟩
    · intro x hx
      rcases List.mem_cons.1 hx with hx | hx
      · rw [hx]; exact le_max_left _ _
      · exact le_trans (h2 x hx) (le_max_right _ _)
    · intro y hy hb
      exact max_le (hb a (List.mem_cons_self _ _))
        (h3 y hy (fun x hx => hb x (List.mem_cons_of_mem _ hx)))

/-! ## C7 -/

theorem splitAux_no_sep (sep : Char) : ∀ (l cur : List Char), sep ∉ l →
    splitAux sep cur l = [cur ++ l] := by
  intro l
  induction l with
  | nil => intro cur _; simp [splitAux]
  | cons c cs ih =>
    intro cur h
    simp only [List.mem_cons, not_or] at h
    have hc : ¬ c = sep := fun e => h.1 e.symm
    simp only [splitAux, hc, if_false]
    rw [ih _ h.2]
    simp

theorem splitAux_sep (sep : Char) : ∀ (l cur rest : List Char), sep ∉ l →
    splitAux sep cur (l ++ sep :: rest) = (cur ++ l) :: splitAux sep [] rest := by
  intro l
  induction l with
  | nil => intro cur rest _; simp [splitAux]
  | cons c cs ih =>
    intro cur rest h
    simp only [List.mem_cons, not_or] at h
    have hc : ¬ c = sep := fun e => h.1 e.symm
    rw [List.cons_append]
    simp only [splitAux, hc, if_false]
    rw [ih _ _ h.2]
    simp

theorem Split_line (e : String × String) (hk : ',' ∉ e.1.data) (hv : ',' ∉ e.2.data) :
    Split (String.mk (lineChars e)) = [e.1, e.2] := by
  simp only [Split, lineChars]
  rw [splitAux_sep ',' _ _ _ hk, splitAux_no_sep ',' _ _ hv]
  simp

theorem linesAux_line : ∀ (l cur rest : List Char), '\n' ∉ l →
    linesAux cur (l ++ '\n' :: rest) = (cur ++ l) :: linesAux [] rest := by
  intro l
  induction l with
  | nil => intro cur rest _; simp [linesAux]
  | cons c cs ih =>
    intro cur rest h
    simp only [List.mem_cons, not_or] at h
    have hc : ¬ c = '\n' := fun e => h.1 e.symm
    rw [List.cons_append]
    simp only [linesAux, hc, if_false]
    rw [ih _ _ h.2]
    simp

theorem linesAux_flatten : ∀ ls : List (List Char), (∀ l ∈ ls, '\n' ∉ l) →
    linesAux [] ((ls.map (fun l => l ++ ['\n'])).flatten) = ls := by
  intro ls
  induction ls with
  | nil => intro _; simp [linesAux]
  | cons l ls ih =>
    intro h
    simp only [List.map_cons, List.flatten_cons, List.append_assoc, List.singleton_append]
    rw [linesAux_line _ _ _ (h l (List.mem_cons_self _ _)),
      ih (fun l' hl' => h l' (List.mem_cons_of_mem _ hl'))]
    simp

theorem writeStore_data : ∀ order : Store,
    (writeStore order).data =
      (((persist order).map lineChars).map (fun l => l ++ ['\n'])).flatten := by
  intro order
  induction order with
  | nil => simp [writeStore, persist]
  | cons e r ih =>
    obtain ⟨k, v⟩ := e
    by_cases hv : v = ""
    · simp [writeStore, persist, hv, ih]
    · simp [writeStore, persist, hv, ih, lineChars]

theorem erase_of_not_mem (k : String) : ∀ m : Store, (∀ e ∈ m, e.1 ≠ k) → m.erase k = m := by
  intro m
  induction m with
  | nil => intro _; rfl
  | cons e r ih =>
    intro h
    obtain ⟨a, b⟩ := e
    have ha : ¬ a = k := h (a, b) (List.mem_cons_self _ _)
    simp only [Store.erase, ha, if_false]
    rw [ih (fun e he => h e (List.mem_cons_of_mem _ he))]

theorem loadLines_entries : ∀ (l acc : Store),
    (∀ e ∈ l, ',' ∉ e.1.data ∧ ',' ∉ e.2.data) → (l.map Prod.fst).Nodup →
    (∀ e ∈ l, ∀ a ∈ acc, a.1 ≠ e.1) →
    loadLines acc (l.map (fun e => String.mk (lineChars e))) = some (l.reverse ++ acc) := by
  intro l
  induction l with
  | nil => intro acc _ _ _; simp [loadLines]
  | cons e r ih =>
    intro acc hc hn hacc
    obtain ⟨hk, hv⟩ := hc e (List.mem_cons_self _ _)
    simp only [List.map_cons, List.nodup_cons] at hn
    have hset : acc.set e.1 e.2 = e :: acc := by
      simp only [Store.set]
      rw [erase_of_not_mem _ _ (hacc e (List.mem_cons_self _ _))]
    simp only [List.map_cons, loadLines, loadLine, Split_line e hk hv, hset]
    rw [ih (e :: acc) (fun e' he' => hc e' (List.mem_cons_of_mem _ he')) hn.2]
    · simp
    · intro e' he' a ha
      rcases List.mem_cons.1 ha with ha | ha
      · rw [ha]
        intro h
        exact hn.1 (by rw [h]; exact List.mem_map_of_mem _ he')
      · exact hacc e' (List.mem_cons_of_mem _ he') a ha

theorem persist_eq_filter : ∀ m : Store, persist m = m.filter (fun e => decide (e.2 ≠ "")) := by
  intro m
  induction m with
  | nil => rfl
  | cons e r ih =>
    obtain ⟨a, b⟩ := e
    by_cases hb : b = "" <;> simp [persist, hb, ih]

theorem byteLen_append (a b : List Char) : byteLen (a ++ b) = byteLen a + byteLen b := by
  simp [byteLen]

/-- What the scanner reads back from the written file: one line per entry with a non-empty
timestamp, when no such entry holds a line feed or a carriage return and each line fits
the buffer of the scanner. -/
theorem scanLines_writeStore (order : Store)
    (hchars : ∀ e ∈ order, ∀ c, c ∈ e.1.data ∨ c ∈ e.2.data → c ≠ '\n' ∧ c ≠ '\r')
    (hsize : ∀ e ∈ order, e.2 ≠ "" → byteLen (lineChars e) < MaxScanTokenSize) :
    scanLines (writeStore order) = (persist order).map (fun e => String.mk (lineChars e)) := by
  have hmem : ∀ e ∈ persist order, e ∈ order ∧ e.2 ≠ "" := fun e he => (mem_persist e order).1 he
  have hline : ∀ e ∈ order, ∀ c ∈ lineChars e, c ≠ '\n' ∧ c ≠ '\r' := by
    intro e he c hc
    simp only [lineChars, List.mem_append, List.mem_cons] at hc
    rcases hc with hc | hc | hc
    · exact hchars e he c (Or.inl hc)
    · rw [hc]; decide
    · exact hchars e he c (Or.inr hc)
  unfold scanLines
  rw [writeStore_data, linesAux_flatten]
  · rw [List.takeWhile_eq_self_iff.2]
    · rw [List.map_map]
      apply List.map_congr_left
      intro e he
      simp only [Function.comp, dropCR]
      rw [if_neg]
      intro h
      have : '\r' ∈ lineChars e := List.mem_of_mem_getLast? (by rw [h]; exact rfl)
      exact (hline e (hmem e he).1 _ this).2 rfl
    · intro l hl
      obtain ⟨e, he, rfl⟩ := List.mem_map.1 hl
      simpa using hsize e (hmem e he).1 (hmem e he).2
  · intro l hl
    obtain ⟨e, he, rfl⟩ := List.mem_map.1 hl
    intro h
    exact (hline e (hmem e he).1 _ h).1 rfl

/-- C7 (as the code has it): for every map with one entry per key whose keys and values
hold no comma, no line feed and no carriage return, and whose entries with a non-empty
value give lines of less than 64 KiB (`url`, comma, `timestamp`, in bytes), writing the map
in any iteration order and loading the written file yields exactly the entries with a
non-empty value, and the scanned file has no line for the key of an entry whose value is
the empty string. -/
theorem C7_roundtrip_compaction (m order : Store)
    (hperm : order.Perm m)
    (hkeys : (m.map Prod.fst).Nodup)
    (hchars : ∀ e ∈ m, ∀ c ∈ e.1.data ++ e.2.data, c ≠ ',' ∧ c ≠ '\n' ∧ c ≠ '\r')
    (hsize : ∀ e ∈ m, e.2 ≠ "" → byteLen (lineChars e) < MaxScanTokenSize) :
    (∃ loaded, loadStore (writeStore order) = some loaded ∧
      loaded.Perm (m.filter (fun e => decide (e.2 ≠ "")))) ∧
    (∀ k, (k, "") ∈ m → ∀ line ∈ scanLines (writeStore order),
      (Split line).head? ≠ some k) := by
  have hmem : ∀ e, e ∈ order ↔ e ∈ m := fun e => hperm.mem_iff
  have hc1 : ∀ e ∈ order, ∀ c, c ∈ e.1.data ∨ c ∈ e.2.data → c ≠ '\n' ∧ c ≠ '\r' :=
    fun e he c hc => (hchars e ((hmem e).1 he) c (List.mem_append.2 hc)).2
  have hc2 : ∀ e ∈ persist order, ',' ∉ e.1.data ∧ ',' ∉ e.2.data := by
    intro e he
    have hm := (hmem e).1 ((mem_persist e order).1 he).1
    exact ⟨fun h => (hchars e hm _ (List.mem_append_left _ h)).1 rfl,
      fun h => (hchars e hm _ (List.mem_append_right _ h)).1 rfl⟩
  have hs : ∀ e ∈ order, e.2 ≠ "" → byteLen (lineChars e) < MaxScanTokenSize :=
    fun e he => hsize e ((hmem e).1 he)
  have hscan := scanLines_writeStore order hc1 hs
  have hnd : ((persist order).map Prod.fst).Nodup := by
    rw [persist_eq_filter]
    exact ((hperm.map Prod.fst).nodup_iff.2 hkeys).sublist
      ((List.filter_sublist _).map Prod.fst)
  constructor
  · refine ⟨(persist order).reverse, ?_, ?_⟩
    · unfold loadStore
      rw [hscan, loadLines_entries _ [] hc2 hnd (by simp)]
      simp
    · rw [persist_eq_filter]
      exact (List.reverse_perm _).trans (hperm.filter _)
  · intro k hk line hline
    rw [hscan] at hline
    obtain ⟨e, he, rfl⟩ := List.mem_map.1 hline
    obtain ⟨h1, h2⟩ := hc2 e he
    rw [Split_line e h1 h2]
    simp only [List.head?_cons, ne_eq, Option.some.injEq]
    intro hek
    obtain ⟨heo, hne⟩ := (mem_persist e order).1 he
    have := List.inj_on_of_nodup_map hkeys ((hmem e).1 heo) hk hek
    rw [this] at hne
    exact hne rfl

theorem C7_roundtrip_compaction_witness :
    (∃ loaded, loadStore (writeStore
        [("microsoftCount", "2"), ("https://store.example/xsx", ""),
          ("https://shop.example/ps5", "1700000000000000000")]) = some loaded ∧
      loaded.Perm (List.filter (fun e => decide (e.2 ≠ ""))
        [("https://shop.example/ps5", "1700000000000000000"),
          ("https://store.example/xsx", ""), ("microsoftCount", "2")])) ∧
    (∀ k, (k, "") ∈ ([("https://shop.example/ps5", "1700000000000000000"),
          ("https://store.example/xsx", ""), ("microsoftCount", "2")] : Store) →
      ∀ line ∈ scanLines (writeStore
        [("microsoftCount", "2"), ("https://store.example/xsx", ""),
          ("https://shop.example/ps5", "1700000000000000000")]),
      (Split line).head? ≠ some k) :=
  C7_roundtrip_compaction
    [("https://shop.example/ps5", "1700000000000000000"), ("https://store.example/xsx", ""),
      ("microsoftCount", "2")]
    [("microsoftCount", "2"), ("https://store.example/xsx", ""),
      ("https://shop.example/ps5", "1700000000000000000")]
    (by decide) (by decide) (by decide) (by decide)

theorem byteLen_replicate (n : Nat) : byteLen (List.replicate n 'a') = n := by
  have h : Char.utf8Size 'a' = 1 := by decide
  simp [byteLen, List.map_replicate, h]

/-- A single entry whose line is as long as the buffer of the scanner is written but not
read back. -/
theorem loadStore_long (n : Nat) (hn : MaxScanTokenSize ≤ n + 20) :
    loadStore (writeStore [(String.mk (List.replicate n 'a'), "1700000000000000000")]) =
      some [] := by
  have hp : persist [(String.mk (List.replicate n 'a'), "1700000000000000000")] =
      [(String.mk (List.replicate n 'a'), "1700000000000000000")] := by
    simp [persist]
  have hno : ∀ l ∈ [lineChars (String.mk (List.replicate n 'a'), "1700000000000000000")],
      '\n' ∉ l := by
    intro l hl
    rw [List.mem_singleton] at hl
    subst hl
    intro h
    simp only [lineChars, List.mem_append] at h
    rcases h with h | h
    · exact absurd (List.eq_of_mem_replicate h) (by decide)
    · exact absurd h (by decide)
  have h20 : byteLen (',' :: "1700000000000000000".data) = 20 := by decide
  have hlen : ¬ byteLen (lineChars (String.mk (List.replicate n 'a'), "1700000000000000000")) <
      MaxScanTokenSize := by
    simp only [lineChars]
    rw [byteLen_append, byteLen_replicate, h20]
    omega
  unfold loadStore scanLines
  rw [writeStore_data, hp]
  simp only [List.map_cons, List.map_nil]
  have := linesAux_flatten
    [lineChars (String.mk (List.replicate n 'a'), "1700000000000000000")] hno
  simp only [List.map_cons, List.map_nil] at this
  rw [this]
  simp [List.takeWhile, hlen, loadLines]

/-- C7 fails as stated: the map with the single entry (`longUrl`, "1700000000000000000"),
whose key and value hold no comma and no line break, is written as one line of 65550 bytes
plus line feed; the scanner stops on it with `ErrTooLong` and the map loaded is empty,
while the map has one entry with a non-empty value. The URL is one that `urls.csv` can
hold: followed by four commas it stays below the limit of the scanner. -/
theorem C7_counterexample :
    (∀ c ∈ longUrl.data ++ "1700000000000000000".data, c ≠ ',' ∧ c ≠ '\n' ∧ c ≠ '\r') ∧
    byteLen (longUrl.data ++ [',', ',', ',', ',']) < MaxScanTokenSize ∧
    loadStore (writeStore [(longUrl, "1700000000000000000")]) = some [] ∧
    List.filter (fun e => decide (e.2 ≠ "")) [(longUrl, "1700000000000000000")] =
      [(longUrl, "1700000000000000000")] := by
  have hd : longUrl.data = List.replicate 65530 'a' := rfl
  refine ⟨?_, ?_, loadStore_long 65530 (by decide), by simp⟩
  · intro c hc
    rw [hd, List.mem_append] at hc
    rcases hc with h | h
    · rw [List.eq_of_mem_replicate h]; decide
    · revert c
      decide
  · have h4 : byteLen [',', ',', ',', ','] = 4 := by decide
    rw [hd, byteLen_append, byteLen_replicate, h4]
    decide

/-! ## What the loop writes can be stored -/

theorem toDigits_chars (n : Nat) : ∀ c ∈ Nat.toDigits 10 n, ∃ d, d < 10 ∧ c = Nat.digitChar d := by
  induction n using Nat.strong_induction_on with
  | _ n ih =>
    intro c hc
    by_cases h : n < 10
    · rw [toDigits_lt n h, List.mem_singleton] at hc
      exact ⟨n, h, hc⟩
    · rw [toDigits_ge n (by omega), List.mem_append, List.mem_singleton] at hc
      rcases hc with hc | hc
      · exact ih (n / 10) (by omega) c hc
      · exact ⟨n % 10, by omega, hc⟩

theorem digitChar_field (d : Nat) (h : d < 10) :
    (Nat.digitChar d ≠ ',' ∧ Nat.digitChar d ≠ '\n' ∧ Nat.digitChar d ≠ '\r') ∧
      (Nat.digitChar d).utf8Size = 1 := by
  interval_cases d <;> decide

theorem FormatInt_data (i : Int) :
    (FormatInt i).data = Nat.toDigits 10 i.natAbs ∨
      (FormatInt i).data = '-' :: Nat.toDigits 10 i.natAbs := by
  by_cases hneg : i < 0
  · right; simp [FormatInt, hneg, Nat.repr, List.asString]
  · left; simp [FormatInt, hneg, Nat.repr, List.asString]

/-- The text of `strconv.FormatInt` holds digits and at most a sign. -/
theorem FormatInt_fieldChars (i : Int) : fieldChars (FormatInt i) := by
  intro c hc
  have hd : ∀ c ∈ Nat.toDigits 10 i.natAbs, c ≠ ',' ∧ c ≠ '\n' ∧ c ≠ '\r' := by
    intro c hc
    obtain ⟨d, hd, rfl⟩ := toDigits_chars _ c hc
    exact (digitChar_field d hd).1
  rcases FormatInt_data i with e | e
  · rw [e] at hc; exact hd c hc
  · rw [e, List.mem_cons] at hc
    rcases hc with hc | hc
    · rw [hc]; decide
    · exact hd c hc

theorem byteLen_toDigits (n : Nat) : byteLen (Nat.toDigits 10 n) = (Nat.toDigits 10 n).length := by
  have : ∀ l : List Char, (∀ c ∈ l, c.utf8Size = 1) → byteLen l = l.length := by
    intro l
    induction l with
    | nil => intro _; rfl
    | cons c cs ih =>
      intro h
      have h1 := h c (List.mem_cons_self _ _)
      have h2 := ih (fun c' hc' => h c' (List.mem_cons_of_mem _ hc'))
      simp only [byteLen, List.map_cons, List.sum_cons, List.length_cons] at h2 ⊢
      omega
  apply this
  intro c hc
  obtain ⟨d, hd, rfl⟩ := toDigits_chars _ c hc
  exact (digitChar_field d hd).2

/-- The text of `strconv.FormatInt` for an `int64` has at most 20 bytes. -/
theorem FormatInt_byteLen (i : Int) (lo : -2 ^ 63 ≤ i) (hi : i < 2 ^ 63) :
    byteLen (FormatInt i).data ≤ 20 := by
  have hlen : (Nat.toDigits 10 i.natAbs).length ≤ 19 := by
    have := Nat.repr_length i.natAbs 19 (by decide) (by
      have : i.natAbs ≤ 2 ^ 63 := by omega
      exact lt_of_le_of_lt this (by norm_num))
    simpa [Nat.repr, String.length, List.asString] using this
  rcases FormatInt_data i with e | e
  · rw [e, byteLen_toDigits]; omega
  · rw [e]
    have h1 : byteLen ('-' :: Nat.toDigits 10 i.natAbs) =
        byteLen ['-'] + byteLen (Nat.toDigits 10 i.natAbs) := byteLen_append ['-'] _
    have h2 : byteLen ['-'] = 1 := by decide
    rw [h1, h2, byteLen_toDigits]; omega

theorem parseIntAbs_range32 (neg : Bool) (s : List Char) :
    -2 ^ 31 ≤ parseIntAbs neg s 32 ∧ parseIntAbs neg s 32 < 2 ^ 31 := by
  unfold parseIntAbs
  simp only
  split_ifs with h1 h2 h3 h4
  · norm_num
  · norm_num
  · norm_num
  · simp only [h4, Bool.true_and, decide_eq_true_eq, not_lt] at h3
    norm_num at h3 ⊢
    omega
  · simp only [Bool.not_eq_true] at h4
    simp only [h4, Bool.not_false, Bool.true_and, decide_eq_true_eq, not_le] at h2
    norm_num at h2 ⊢
    omega

/-- The value of `strconv.ParseInt(s, 10, 32)` lies in the `int32` range. -/
theorem ParseInt_range32 (s : String) : -2 ^ 31 ≤ ParseInt s 32 ∧ ParseInt s 32 < 2 ^ 31 := by
  unfold ParseInt
  split
  · norm_num
  · exact parseIntAbs_range32 _ _
  · exact parseIntAbs_range32 _ _
  · exact parseIntAbs_range32 _ _

theorem keys_erase_nodup (k : String) : ∀ m : Store, (m.map Prod.fst).Nodup →
    ((m.erase k).map Prod.fst).Nodup := by
  intro m
  induction m with
  | nil => intro _; simp [Store.erase]
  | cons e r ih =>
    obtain ⟨a, b⟩ := e
    intro h
    simp only [List.map_cons, List.nodup_cons] at h
    by_cases ha : a = k
    · simp only [Store.erase, ha, if_true]
      exact ih h.2
    · simp only [Store.erase, ha, if_false, List.map_cons, List.nodup_cons]
      refine ⟨?_, ih h.2⟩
      intro hmem
      obtain ⟨e, he, hea⟩ := List.mem_map.1 hmem
      exact h.1 (List.mem_map.2 ⟨e, ((mem_erase k e r).1 he).1, hea⟩)

/-- Writing a storable entry into a storable map gives a storable map. -/
theorem Storable_set (m : Store) (k v : String) (h : Storable m) (hk : fieldChars k)
    (hv : fieldChars v)
    (hfit : v ≠ "" → byteLen (lineChars (k, v)) < MaxScanTokenSize) :
    Storable (m.set k v) := by
  constructor
  · simp only [Store.set, List.map_cons, List.nodup_cons]
    refine ⟨?_, keys_erase_nodup k m h.1⟩
    intro hmem
    obtain ⟨e, he, hea⟩ := List.mem_map.1 hmem
    exact ((mem_erase k e m).1 he).2 hea
  · intro e he
    simp only [Store.set, List.mem_cons] at he
    rcases he with he | he
    · rw [he]; exact ⟨hk, hv, hfit⟩
    · exact h.2 e ((mem_erase k e m).1 he).1

theorem fieldChars_microsoftCount : fieldChars microsoftCount := by decide

theorem fieldChars_zero : fieldChars "0" := by decide

theorem fieldChars_empty : fieldChars "" := by decide

theorem fits_counter (c : Int) (lo : -2 ^ 63 ≤ c) (hi : c < 2 ^ 63) :
    byteLen (lineChars (microsoftCount, FormatInt c)) < MaxScanTokenSize := by
  have h1 : byteLen (lineChars (microsoftCount, FormatInt c)) =
      byteLen microsoftCount.data + (byteLen [','] + byteLen (FormatInt c).data) := by
    simp only [lineChars]
    rw [byteLen_append, ← byteLen_append [','] _]
    rfl
  have h2 : byteLen microsoftCount.data = 14 := by decide
  have h3 : byteLen [','] = 1 := by decide
  have h4 := FormatInt_byteLen c lo hi
  have h5 : MaxScanTokenSize = 65536 := by decide
  omega

/-- One iteration keeps the map storable, when the URL of the target can stand as a field
and its line with the clock value fits the buffer of the scanner. -/
theorem Storable_step (st : RunState) (item : urlToCheck) (t : Int) (p : Probe)
    (h : Storable st.alertAlreadySent) (hu : fieldChars item.url)
    (hfit : byteLen (lineChars (item.url, FormatInt t)) < MaxScanTokenSize) :
    Storable (processItem st item t p).state.alertAlreadySent := by
  obtain ⟨m1, m4, cnt, h1, hc, h4, hcases⟩ := processItem_cases st item t p
  have hcnt : -2 ^ 63 ≤ cnt ∧ cnt < 2 ^ 63 := by
    have := ParseInt_range32 (st.alertAlreadySent.getD microsoftCount)
    rcases hc with hc | hc <;> rw [hc]
    · norm_num
    · constructor <;> omega
  have s1 : Storable m1 := by
    rcases h1 with h1 | h1 <;> rw [h1]
    · exact h
    · exact Storable_set _ _ _ h fieldChars_microsoftCount fieldChars_zero
        (fun _ => by decide)
  have sc : Storable (m1.set microsoftCount (FormatInt cnt)) :=
    Storable_set _ _ _ s1 fieldChars_microsoftCount (FormatInt_fieldChars _)
      (fun _ => fits_counter cnt hcnt.1 hcnt.2)
  have s4 : Storable m4 := by
    rcases h4 with h4 | ⟨_, h4⟩ <;> rw [h4]
    · exact s1
    · exact Storable_set _ _ _ sc fieldChars_microsoftCount fieldChars_zero
        (fun _ => by decide)
  have sf : Storable (m4.set item.url (FormatInt t)) :=
    Storable_set _ _ _ s4 hu (FormatInt_fieldChars _) (fun _ => hfit)
  have se : Storable (m1.set item.url "") :=
    Storable_set _ _ _ s1 hu fieldChars_empty (fun hne => absurd rfl hne)
  rcases hcases with e | e | ⟨_, e | e | e | e | ⟨_, e⟩ | ⟨_, _, e⟩⟩ <;> rw [e] <;>
    simp only [Step.state] <;> assumption

/-- With both Twitter calls succeeding an iteration does not end in `log.Fatal`. -/
theorem processItem_next (st : RunState) (item : urlToCheck) (t : Int) (p : Probe)
    (hcl : p.clientErr = false) (hup : p.updateErr = false) :
    processItem st item t p = Step.next (processItem st item t p).state := by
  obtain ⟨m1, m4, cnt, _, _, _, hcases⟩ := processItem_cases st item t p
  rcases hcases with e | e | ⟨_, e | e | e | e | ⟨hf, _⟩ | ⟨_, _, e⟩⟩
  · rw [e]; rfl
  · rw [e]; rfl
  · rw [e]; rfl
  · rw [e]; rfl
  · rw [e]; rfl
  · rw [e]; rfl
  · rcases hf with hf | hf
    · rw [hcl] at hf; cases hf
    · rw [hup] at hf; cases hf
  · rw [e]; rfl

theorem get_mem (k v : String) : ∀ m : Store, Store.get m k = some v → (k, v) ∈ m := by
  intro m
  induction m with
  | nil => intro h; simp [Store.get] at h
  | cons e r ih =>
    obtain ⟨a, b⟩ := e
    intro h
    by_cases ha : a = k
    · simp only [Store.get, ha, if_true, Option.some.injEq] at h
      rw [ha, h]; exact List.mem_cons_self _ _
    · simp only [Store.get, ha, if_false] at h
      exact List.mem_cons_of_mem _ (ih h)

theorem get_of_mem (k v : String) : ∀ m : Store, (m.map Prod.fst).Nodup → (k, v) ∈ m →
    Store.get m k = some v := by
  intro m
  induction m with
  | nil => intro _ h; simp at h
  | cons e r ih =>
    obtain ⟨a, b⟩ := e
    intro hn h
    simp only [List.map_cons, List.nodup_cons] at hn
    rcases List.mem_cons.1 h with h | h
    · simp only [Prod.mk.injEq] at h
      simp [Store.get, h.1, h.2]
    · have ha : ¬ a = k := by
        intro e
        exact hn.1 (List.mem_map.2 ⟨(k, v), h, e.symm⟩)
      simp only [Store.get, ha, if_false]
      exact ih hn.2 h

/-- The map that the next run loads from the file written for a storable map: its entries
with a non-empty value, in the reverse of the order written. -/
theorem loadStore_writeStore (m order : Store) (hperm : order.Perm m) (h : Storable m) :
    loadStore (writeStore order) = some (persist order).reverse := by
  have hmem : ∀ e, e ∈ order ↔ e ∈ m := fun e => hperm.mem_iff
  have hc1 : ∀ e ∈ order, ∀ c, c ∈ e.1.data ∨ c ∈ e.2.data → c ≠ '\n' ∧ c ≠ '\r' := by
    intro e he c hc
    obtain ⟨a, b, _⟩ := h.2 e ((hmem e).1 he)
    rcases hc with hc | hc
    · exact (a c hc).2
    · exact (b c hc).2
  have hc2 : ∀ e ∈ persist order, ',' ∉ e.1.data ∧ ',' ∉ e.2.data := by
    intro e he
    obtain ⟨a, b, _⟩ := h.2 e ((hmem e).1 ((mem_persist e order).1 he).1)
    exact ⟨fun hh => (a _ hh).1 rfl, fun hh => (b _ hh).1 rfl⟩
  have hs : ∀ e ∈ order, e.2 ≠ "" → byteLen (lineChars e) < MaxScanTokenSize :=
    fun e he => (h.2 e ((hmem e).1 he)).2.2
  have hnd : ((persist order).map Prod.fst).Nodup := by
    rw [persist_eq_filter]
    exact ((hperm.map Prod.fst).nodup_iff.2 h.1).sublist
      ((List.filter_sublist _).map Prod.fst)
  unfold loadStore
  rw [scanLines_writeStore order hc1 hs, loadLines_entries _ [] hc2 hnd (by simp)]
  simp

theorem mem_reload (m order : Store) (hperm : order.Perm m) (e : String × String) :
    e ∈ (persist order).reverse ↔ e ∈ m ∧ e.2 ≠ "" := by
  rw [List.mem_reverse, mem_persist, hperm.mem_iff]

theorem Storable_reload (m order : Store) (hperm : order.Perm m) (h : Storable m) :
    Storable (persist order).reverse := by
  constructor
  · rw [List.map_reverse, List.nodup_reverse, persist_eq_filter]
    exact ((hperm.map Prod.fst).nodup_iff.2 h.1).sublist
      ((List.filter_sublist _).map Prod.fst)
  · intro e he
    exact h.2 e ((mem_reload m order hperm e).1 he).1

theorem get_reload_some (m order : Store) (hperm : order.Perm m) (h : Storable m)
    (k v : String) (hg : m.get k = some v) (hv : v ≠ "") :
    Store.get (persist order).reverse k = some v :=
  get_of_mem k v _ (Storable_reload m order hperm h).1
    ((mem_reload m order hperm (k, v)).2 ⟨get_mem k v m hg, hv⟩)

theorem get_reload_none (m order : Store) (hperm : order.Perm m) (h : Storable m)
    (k : String) (hg : m.get k = none ∨ m.get k = some "") :
    Store.get (persist order).reverse k = none := by
  rw [get_eq_none_iff]
  intro e he hek
  obtain ⟨hem, hne⟩ := (mem_reload m order hperm e).1 he
  have hge : m.get k = some e.2 := get_of_mem k e.2 m h.1 (by rw [← hek]; exact hem)
  rcases hg with hg | hg
  · rw [hg] at hge; cases hge
  · rw [hg] at hge
    exact hne (Option.some.inj hge).symm

theorem runItems_next : ∀ (vs : List Visit) (st : RunState),
    (∀ v ∈ vs, v.2.2.clientErr = false ∧ v.2.2.updateErr = false) →
    runItems st vs = Step.next (runItems st vs).state := by
  intro vs
  induction vs with
  | nil => intro st _; rfl
  | cons v vs ih =>
    intro st h
    obtain ⟨item, t, p⟩ := v
    obtain ⟨hcl, hup⟩ := h (item, t, p) (List.mem_cons_self _ _)
    simp only [runItems]
    rw [processItem_next st item t p hcl hup]
    exact ih _ (fun v hv => h v (List.mem_cons_of_mem _ hv))

theorem Storable_runItems : ∀ (vs : List Visit) (st : RunState),
    Storable st.alertAlreadySent →
    (∀ v ∈ vs, fieldChars v.1.url ∧
      byteLen (lineChars (v.1.url, FormatInt v.2.1)) < MaxScanTokenSize) →
    Storable (runItems st vs).state.alertAlreadySent := by
  intro vs
  induction vs with
  | nil => intro st h _; exact h
  | cons v vs ih =>
    intro st h hv
    obtain ⟨item, t, p⟩ := v
    obtain ⟨hu, hfit⟩ := hv (item, t, p) (List.mem_cons_self _ _)
    have hstep := Storable_step st item t p h hu hfit
    simp only [runItems]
    cases e : processItem st item t p with
    | fatal s1 => rw [e] at hstep; exact hstep
    | next s1 =>
      rw [e] at hstep
      exact ih s1 hstep (fun v hv' => hv v (List.mem_cons_of_mem _ hv'))

theorem Spaced_reload (T : Int) (m order : Store) (b : Bool) (log : List Tweet)
    (hperm : order.Perm m) (hm : Storable m) (h : Spaced T ⟨m, b, log⟩) :
    Spaced T ⟨(persist order).reverse, false, log⟩ := by
  refine ⟨h.1, fun tw htw => ?_⟩
  obtain ⟨h1, h2⟩ := h.2 tw htw
  refine ⟨h1, ?_⟩
  rcases h2 with h2 | ⟨a, b, c, d⟩
  · exact Or.inl h2
  · exact Or.inr ⟨get_reload_some m order hperm hm _ _ a (FormatInt_ne_empty _), b, c, d⟩

/-- The spacing of the tweets over successive runs that read and rewrite the file. -/
theorem Spaced_runCycles : ∀ (runs : List Run) (T : Int) (file : String) (loaded : Store)
    (log : List Tweet), loadStore file = some loaded → Storable loaded →
    Spaced T ⟨loaded, false, log⟩ →
    (∀ r ∈ runs, ∀ m, (r.order m).Perm m) →
    (∀ r ∈ runs, ∀ v ∈ r.visits, T ≤ v.2.1 ∧ -2 ^ 63 ≤ v.2.1 ∧ v.2.1 < 2 ^ 63) →
    (((runs.map Run.visits).flatten).map (fun v => v.2.1)).Pairwise (fun a b => a ≤ b) →
    (∀ r ∈ runs, ∀ v ∈ r.visits, fieldChars v.1.url ∧
      byteLen (lineChars (v.1.url, FormatInt v.2.1)) < MaxScanTokenSize) →
    (∀ r ∈ runs, ∀ v ∈ r.visits, v.2.2.clientErr = false ∧ v.2.2.updateErr = false) →
    (runCycles file log runs).Pairwise
      (fun a b => a.url = b.url → cooldown ≤ b.todayNow - a.todayNow) := by
  intro runs
  induction runs with
  | nil => intro T file loaded log _ _ h _ _ _ _ _; exact h.1
  | cons r rs ih =>
    intro T file loaded log hload hst h horder hr hp hurl htw
    simp only [List.map_cons, List.flatten_cons, List.map_append, List.pairwise_append] at hp
    obtain ⟨hpc, hpcs, hcross⟩ := hp
    have hr0 := hr r (List.mem_cons_self _ _)
    obtain ⟨T', b1, b2, b3⟩ := exists_bound T (r.visits.map (fun v => v.2.1))
    have hsp := Spaced_runItems r.visits T ⟨loaded, false, log⟩ h hr0 hpc T' b1
      (fun v hv => b2 _ (List.mem_map_of_mem _ hv))
    have hsto := Storable_runItems r.visits ⟨loaded, false, log⟩ hst
      (hurl r (List.mem_cons_self _ _))
    have hnext := runItems_next r.visits ⟨loaded, false, log⟩ (htw r (List.mem_cons_self _ _))
    have hperm := horder r (List.mem_cons_self _ _)
      (runItems ⟨loaded, false, log⟩ r.visits).state.alertAlreadySent
    have hrun : runFile file log r =
        some (writeStore (r.order
          (runItems ⟨loaded, false, log⟩ r.visits).state.alertAlreadySent),
          (runItems ⟨loaded, false, log⟩ r.visits).state.tweets) := by
      simp only [runFile, hload]
      cases e : runItems ⟨loaded, false, log⟩ r.visits with
      | next st => rfl
      | fatal st => rw [e] at hnext; cases hnext
    simp only [runCycles, hrun]
    refine ih T' _ _ _ (loadStore_writeStore _ _ hperm hsto) (Storable_reload _ _ hperm hsto)
      (Spaced_reload T' _ _ _ _ hperm hsto hsp)
      (fun r' hr' => horder r' (List.mem_cons_of_mem _ hr')) ?_ hpcs
      (fun r' hr' => hurl r' (List.mem_cons_of_mem _ hr'))
      (fun r' hr' => htw r' (List.mem_cons_of_mem _ hr'))
    intro r' hr' v hv
    obtain ⟨a, lo, hi⟩ := hr r' (List.mem_cons_of_mem _ hr') v hv
    refine ⟨b3 _ a ?_, lo, hi⟩
    intro x hx
    refine hcross x hx v.2.1 (List.mem_map_of_mem _ ?_)
    exact List.mem_flatten.2 ⟨r'.visits, List.mem_map_of_mem _ hr', hv⟩

/-! ## C3 -/

/-- C3: at most one tweet per target and cooldown. For every sequence of runs of `main`
that starts from the empty file `instock.csv`, each run loading the file as the run before
wrote it, with clock values in `int64` that never decrease: when every run writes its map
(no run exits in `log.Fatal`: the Twitter calls succeed) and the next run loads what was
written (every URL can stand as a field of a line, and its line with the clock value fits
the buffer of the scanner), any two tweets sent for the same URL carry clock values at
least 5 minutes apart. The log lists the tweets in the order they were sent. -/
theorem C3_one_tweet_per_cooldown (runs : List Run)
    (horder : ∀ r ∈ runs, ∀ m, (r.order m).Perm m)
    (hrange : ∀ r ∈ runs, ∀ v ∈ r.visits, -2 ^ 63 ≤ v.2.1 ∧ v.2.1 < 2 ^ 63)
    (hmono : (((runs.map Run.visits).flatten).map (fun v => v.2.1)).Pairwise
      (fun a b => a ≤ b))
    (hurl : ∀ r ∈ runs, ∀ v ∈ r.visits, fieldChars v.1.url ∧
      byteLen (lineChars (v.1.url, FormatInt v.2.1)) < MaxScanTokenSize)
    (htwitter : ∀ r ∈ runs, ∀ v ∈ r.visits,
      v.2.2.clientErr = false ∧ v.2.2.updateErr = false) :
    (runCycles "" [] runs).Pairwise
      (fun a b => a.url = b.url → cooldown ≤ b.todayNow - a.todayNow) := by
  refine Spaced_runCycles runs (-2 ^ 63) "" [] [] (by decide) ⟨by simp, by simp⟩
    ⟨List.Pairwise.nil, by simp⟩ horder ?_ hmono hurl htwitter
  intro r hr v hv
  exact ⟨(hrange r hr v hv).1, hrange r hr v hv⟩

theorem C3_one_tweet_per_cooldown_witness :
    runCycles "" [] exampleCycles =
      [⟨shopItem.url, "PS5", clock0⟩, ⟨otherItem.url, "Xbox", clock0 + 1⟩,
        ⟨shopItem.url, "PS5", clock0 + 480000000000⟩] ∧
    (runCycles "" [] exampleCycles).Pairwise
      (fun a b => a.url = b.url → cooldown ≤ b.todayNow - a.todayNow) :=
  ⟨by decide,
    C3_one_tweet_per_cooldown exampleCycles
      (by
        intro r hr m
        simp only [exampleCycles, List.mem_cons, List.mem_singleton, List.not_mem_nil,
          or_false] at hr
        rcases hr with rfl | rfl | rfl | rfl
        · exact List.Perm.refl _
        · exact List.reverse_perm _
        · exact List.Perm.refl _
        · exact List.reverse_perm _)
      (by decide) (by decide) (by decide) (by decide)⟩

/-- After a run that has sent a tweet and then exits in `log.Fatal` the file is as it was
before the run, and the next run, one minute later, sends the tweet again. -/
theorem runCycles_after_fatal :
    runCycles "" [] cyclesWithFatal =
      [⟨shopItem.url, "PS5", clock0⟩, ⟨shopItem.url, "PS5", clock0 + 60000000000⟩] := by
  decide

/-! ## C5 -/

/-- The scanned file has no line for a key that the map does not hold or holds with the
empty string. -/
theorem no_line_for_empty (m order : Store) (hperm : order.Perm m) (h : Storable m)
    (k : String) (hk : m.get k = none ∨ m.get k = some "") :
    ∀ line ∈ scanLines (writeStore order), (Split line).head? ≠ some k := by
  have hmem : ∀ e, e ∈ order ↔ e ∈ m := fun e => hperm.mem_iff
  have hc1 : ∀ e ∈ order, ∀ c, c ∈ e.1.data ∨ c ∈ e.2.data → c ≠ '\n' ∧ c ≠ '\r' := by
    intro e he c hc
    obtain ⟨a, b, _⟩ := h.2 e ((hmem e).1 he)
    rcases hc with hc | hc
    · exact (a c hc).2
    · exact (b c hc).2
  have hs : ∀ e ∈ order, e.2 ≠ "" → byteLen (lineChars e) < MaxScanTokenSize :=
    fun e he => (h.2 e ((hmem e).1 he)).2.2
  intro line hline
  rw [scanLines_writeStore order hc1 hs] at hline
  obtain ⟨e, he, rfl⟩ := List.mem_map.1 hline
  obtain ⟨heo, hne⟩ := (mem_persist e order).1 he
  obtain ⟨a, b, _⟩ := h.2 e ((hmem e).1 heo)
  rw [Split_line e (fun hh => (a _ hh).1 rfl) (fun hh => (b _ hh).1 rfl)]
  simp only [List.head?_cons, ne_eq, Option.some.injEq]
  intro hek
  have hge : m.get k = some e.2 :=
    get_of_mem k e.2 m h.1 (by rw [← hek]; exact (hmem e).1 heo)
  rcases hk with hk | hk
  · rw [hk] at hge; cases hge
  · rw [hk] at hge
    exact hne (Option.some.inj hge).symm

/-- A run over one target without quirk pattern, without secondary phrase and without
entry, in which the out-of-stock phrase is not found and Twitter works: it sends the tweet
and writes the map with the entry set to the clock value. -/
theorem runFile_fire_plain (file : String) (loaded : Store) (item : urlToCheck) (t : Int)
    (p : Probe) (o : Store → Store)
    (hload : loadStore file = some loaded)
    (hq1 : Contains item.url "microsoft" = false)
    (hq2 : Contains item.url "xbox.com" = false)
    (hphrase : item.inStockMessage = "")
    (hno : loaded.get item.url = none)
    (hp : p.elementR = TryErr.nil ∧ p.outOfStock = TryErr.deadlineExceeded ∧
      p.clientErr = false ∧ p.updateErr = false) :
    runFile file [] ⟨[(item, t, p)], o⟩ =
      some (writeStore (o (loaded.set item.url (FormatInt t))),
        [⟨item.url, item.product, t⟩]) := by
  obtain ⟨e1, o1, c1, u1⟩ := hp
  have hq0 := not_Contains_microsoft_co _ hq1
  have s1 : processItem ⟨loaded, false, []⟩ item t p =
      Step.next ⟨loaded.set item.url (FormatInt t), true, [⟨item.url, item.product, t⟩]⟩ := by
    simp [processItem, hno, e1, o1, c1, u1, hq0, hq1, hq2, hphrase]
  simp only [runFile, hload, runItems, s1]

/-- C5 (as the code has it): scenario A, for a target whose URL contains neither
"microsoft" nor "xbox.com", can stand as a field of a line (no comma, no line break) and
gives with the clock value `t` a line that fits the buffer of the scanner, with an empty
`inStockMessage`, Twitter working, and no entry in a loaded map that the file can hold.
The run at `t` in which the out-of-stock phrase is not found sends exactly one tweet and
the file it writes holds the entry `t`; the next run, one minute later, sends nothing
whatever the external results and the file it writes holds the entry `t`; a later run at
`t3`, at least 5 minutes after `t` (6 minutes after the first or after the second run), in
which the out-of-stock phrase is found, sends nothing and writes a file without line for
the target. Each run reads the file as the run before wrote it, in any iteration order of
the map. -/
theorem C5_scenario_A (file : String) (loaded : Store) (item : urlToCheck) (t t3 : Int)
    (p1 p2 p3 : Probe) (o1 o2 o3 : Store → Store)
    (hload : loadStore file = some loaded) (hsto : Storable loaded)
    (ho1 : ∀ m, (o1 m).Perm m) (ho2 : ∀ m, (o2 m).Perm m) (ho3 : ∀ m, (o3 m).Perm m)
    (hq1 : Contains item.url "microsoft" = false)
    (hq2 : Contains item.url "xbox.com" = false)
    (hphrase : item.inStockMessage = "")
    (hno : loaded.get item.url = none)
    (hu : fieldChars item.url)
    (hfit : byteLen (lineChars (item.url, FormatInt t)) < MaxScanTokenSize)
    (lo : -2 ^ 63 ≤ t) (hi : t < 2 ^ 63)
    (hp1 : p1.elementR = TryErr.nil ∧ p1.outOfStock = TryErr.deadlineExceeded ∧
      p1.clientErr = false ∧ p1.updateErr = false)
    (hp3 : p3.elementR = TryErr.nil ∧ p3.outOfStock = TryErr.nil)
    (h3 : cooldown ≤ t3 - t) (h3' : t3 - t < 2 ^ 63) :
    ∃ file1 file2 file3 : String,
      runFile file [] ⟨[(item, t, p1)], o1⟩ = some (file1, [⟨item.url, item.product, t⟩]) ∧
      (∃ m1, loadStore file1 = some m1 ∧ m1.get item.url = some (FormatInt t)) ∧
      runFile file1 [] ⟨[(item, t + 60000000000, p2)], o2⟩ = some (file2, []) ∧
      (∃ m2, loadStore file2 = some m2 ∧ m2.get item.url = some (FormatInt t)) ∧
      runFile file2 [] ⟨[(item, t3, p3)], o3⟩ = some (file3, []) ∧
      (∀ line ∈ scanLines file3, (Split line).head? ≠ some item.url) ∧
      (∃ m3, loadStore file3 = some m3 ∧ m3.get item.url = none) := by
  obtain ⟨e3, o3'⟩ := hp3
  have hq0 := not_Contains_microsoft_co _ hq1
  have hne := FormatInt_ne_empty t
  have hparse := ParseInt_FormatInt t lo hi
  -- first run
  have r1 := runFile_fire_plain file loaded item t p1 o1 hload hq1 hq2 hphrase hno hp1
  have sto1 : Storable (loaded.set item.url (FormatInt t)) :=
    Storable_set _ _ _ hsto hu (FormatInt_fieldChars t) (fun _ => hfit)
  have l1 := loadStore_writeStore _ _ (ho1 _) sto1
  have g1 := get_reload_some _ _ (ho1 _) sto1 item.url (FormatInt t) (get_set_self _ _ _) hne
  have sto1' := Storable_reload _ _ (ho1 _) sto1
  -- second run
  have hage2 : wrap64 (t + 60000000000 - ParseInt (FormatInt t) 64) < cooldown := by
    rw [hparse]
    have : t + 60000000000 - t = 60000000000 := by omega
    rw [this]; decide
  obtain ⟨st2, s2, m2, w2⟩ := processItem_skip
    ⟨(persist (o1 (loaded.set item.url (FormatInt t)))).reverse, false, []⟩ item
    (t + 60000000000) p2 (FormatInt t) g1 hage2
  simp only at m2 w2
  have r2 : runFile (writeStore (o1 (loaded.set item.url (FormatInt t)))) []
      ⟨[(item, t + 60000000000, p2)], o2⟩ =
      some (writeStore (o2 (persist (o1 (loaded.set item.url (FormatInt t)))).reverse), []) := by
    simp only [runFile, l1, runItems, s2, m2, w2]
  have l2 := loadStore_writeStore _ _ (ho2 _) sto1'
  have g2 := get_reload_some _ _ (ho2 _) sto1' item.url (FormatInt t) g1 hne
  have sto2 := Storable_reload _ _ (ho2 _) sto1'
  -- third run
  have hc : (0 : Int) ≤ cooldown := by decide
  have hage3 : ¬ wrap64 (t3 - ParseInt (FormatInt t) 64) < cooldown := by
    rw [hparse, wrap64_of_range _ (by omega) h3']
    omega
  have hD : Store.getD (persist (o2 (persist (o1 (loaded.set item.url
      (FormatInt t)))).reverse)).reverse item.url = FormatInt t := by
    simp [Store.getD, g2]
  have s3 : processItem ⟨(persist (o2 (persist (o1 (loaded.set item.url
      (FormatInt t)))).reverse)).reverse, false, []⟩ item t3 p3 =
      Step.next ⟨Store.set (persist (o2 (persist (o1 (loaded.set item.url
        (FormatInt t)))).reverse)).reverse item.url "", false, []⟩ := by
    simp [processItem, g2, hD, hage3, e3, o3', hq0, hq2]
  have r3 : runFile (writeStore (o2 (persist (o1 (loaded.set item.url
      (FormatInt t)))).reverse)) [] ⟨[(item, t3, p3)], o3⟩ =
      some (writeStore (o3 (Store.set (persist (o2 (persist (o1 (loaded.set item.url
        (FormatInt t)))).reverse)).reverse item.url "")), []) := by
    simp only [runFile, l2, runItems, s3]
  have sto3 : Storable (Store.set (persist (o2 (persist (o1 (loaded.set item.url
      (FormatInt t)))).reverse)).reverse item.url "") :=
    Storable_set _ _ _ sto2 hu fieldChars_empty (fun h => absurd rfl h)
  have l3 := loadStore_writeStore _ _ (ho3 _) sto3
  exact ⟨_, _, _, r1, ⟨_, l1, g1⟩, r2, ⟨_, l2, g2⟩, r3,
    no_line_for_empty _ _ (ho3 _) sto3 item.url (Or.inr (get_set_self _ _ _)),
    ⟨_, l3, get_reload_none _ _ (ho3 _) sto3 item.url (Or.inr (get_set_self _ _ _))⟩⟩

theorem C5_scenario_A_witness :
    ∃ file1 file2 file3 : String,
      runFile "" [] ⟨[(shopItem, clock0, probeInStock)], id⟩ =
        some (file1, [⟨shopItem.url, shopItem.product, clock0⟩]) ∧
      (∃ m1, loadStore file1 = some m1 ∧ m1.get shopItem.url = some (FormatInt clock0)) ∧
      runFile file1 [] ⟨[(shopItem, clock0 + 60000000000, probeInStock)], List.reverse⟩ =
        some (file2, []) ∧
      (∃ m2, loadStore file2 = some m2 ∧ m2.get shopItem.url = some (FormatInt clock0)) ∧
      runFile file2 [] ⟨[(shopItem, clock0 + 420000000000, probeOutOfStock)], id⟩ =
        some (file3, []) ∧
      (∀ line ∈ scanLines file3, (Split line).head? ≠ some shopItem.url) ∧
      (∃ m3, loadStore file3 = some m3 ∧ m3.get shopItem.url = none) :=
  C5_scenario_A "" [] shopItem clock0 (clock0 + 420000000000) probeInStock probeInStock
    probeOutOfStock id List.reverse id (by decide)
    ⟨List.nodup_nil, fun e he => absurd he (List.not_mem_nil e)⟩
    (fun m => List.Perm.refl m) (fun m => List.reverse_perm m) (fun m => List.Perm.refl m)
    (by decide) (by decide) (by decide) (by decide) (by decide) (by decide) (by decide)
    (by decide) (by decide) (by decide) (by decide) (by decide)

theorem hasInfix_replicate (c : Char) (cs : List Char) (hc : c ≠ 'a') : ∀ n : Nat,
    hasInfix (List.replicate n 'a') (c :: cs) = false := by
  intro n
  induction n with
  | zero => rfl
  | succ n ih =>
    have hc' : (c == 'a') = false := by simpa using hc
    simp [List.replicate_succ, hasInfix, List.isPrefixOf, hc', ih]

theorem Contains_replicate (n : Nat) (s : String) (c : Char) (cs : List Char)
    (hs : s.data = c :: cs) (hc : c ≠ 'a') :
    Contains (String.mk (List.replicate n 'a')) s = false := by
  unfold Contains
  rw [hs]
  exact hasInfix_replicate c cs hc n

/-- C5 fails as stated: the target `longItem` has a URL of 65530 bytes, which `urls.csv`
can hold, without quirk pattern and without secondary phrase. The first run, from the
empty file, sends the tweet and writes the entry as a line of 65550 bytes; the second run,
60 seconds later with the same outcome, reads that file up to the line that does not fit
the buffer, finds no entry for the target and sends the tweet again. -/
theorem C5_counterexample :
    Contains longItem.url "microsoft" = false ∧
    Contains longItem.url "xbox.com" = false ∧
    longItem.inStockMessage = "" ∧
    runFile "" [] ⟨[(longItem, clock0, probeInStock)], id⟩ =
      some (writeStore [(longUrl, "1700000000000000000")], [⟨longUrl, "PS5", clock0⟩]) ∧
    runFile (writeStore [(longUrl, "1700000000000000000")]) []
        ⟨[(longItem, clock0 + 60000000000, probeInStock)], id⟩ =
      some (writeStore [(longUrl, "1700000060000000000")],
        [⟨longUrl, "PS5", clock0 + 60000000000⟩]) := by
  have hq1 : Contains longItem.url "microsoft" = false :=
    Contains_replicate 65530 "microsoft" 'm' _ rfl (by decide)
  have hq2 : Contains longItem.url "xbox.com" = false :=
    Contains_replicate 65530 "xbox.com" 'x' _ rfl (by decide)
  have hf1 : FormatInt clock0 = "1700000000000000000" := by decide
  have hf2 : FormatInt (clock0 + 60000000000) = "1700000060000000000" := by decide
  have hp : probeInStock.elementR = TryErr.nil ∧
      probeInStock.outOfStock = TryErr.deadlineExceeded ∧
      probeInStock.clientErr = false ∧ probeInStock.updateErr = false := by decide
  have r1 := runFile_fire_plain "" [] longItem clock0 probeInStock id (by decide) hq1 hq2 rfl
    rfl hp
  have r2 := runFile_fire_plain (writeStore [(longUrl, "1700000000000000000")]) [] longItem
    (clock0 + 60000000000) probeInStock id (loadStore_long 65530 (by decide)) hq1 hq2 rfl
    rfl hp
  rw [hf1] at r1
  rw [hf2] at r2
  exact ⟨hq1, hq2, rfl, r1, r2⟩

end PS5Tracker
